import Mathlib

/-!
# Verification of the SilkRouteHelper template-driven extraction core

This file shallowly embeds the rule-evaluation, orchestration, dispatch,
template-activation and reference-data code of the SilkRouteHelper backend
and proves properties of the embedded definitions.

Modelling conventions:
* Python strings are sequences of code points, embedded as `List Char`
  (`PyStr`).  Indexing and slicing are by code point, as in Python.
* Python `float` confidences are embedded as exact rationals `ℚ`; the
  decimal literals of the source (`0.7`, `0.1`, ...) are taken exactly.
* Fallible Python code (code that may raise) is embedded with
  `Option`/`Except`.
* `str.lower`/`str.upper` are embedded for the alphabets the code uses
  (ASCII and the Cyrillic block А-Я/а-я plus Ё/ё); Python whitespace for
  `str.strip`/`str.split` is embedded as the ASCII whitespace set.
* `re` (the regex engine) is external to the repository.  Evaluator code
  that consumes `re.finditer`/`re.search` output is embedded as a function
  of the list of matches; an executable matcher for *literal* patterns
  (optionally with one capturing group around a literal part) instantiates
  it on concrete inputs.
-/

set_option maxRecDepth 4096

namespace SilkRoute

/-- Python strings, as sequences of code points. -/
abbrev PyStr := List Char

/-- Convert a Lean string literal to an embedded Python string. -/
def pys (s : String) : PyStr := s.toList

/-- `str.lower` on one character, for ASCII and Cyrillic А-Я / Ё. -/
def charLower (c : Char) : Char :=
  if 'A' ≤ c ∧ c ≤ 'Z' then Char.ofNat (c.toNat + 32)
  else if 'А' ≤ c ∧ c ≤ 'Я' then Char.ofNat (c.toNat + 32)
  else if c = 'Ё' then 'ё'
  else c

/-- `str.upper` on one character, for ASCII and Cyrillic а-я / ё. -/
def charUpper (c : Char) : Char :=
  if 'a' ≤ c ∧ c ≤ 'z' then Char.ofNat (c.toNat - 32)
  else if 'а' ≤ c ∧ c ≤ 'я' then Char.ofNat (c.toNat - 32)
  else if c = 'ё' then 'Ё'
  else c

/-- `str.lower`. -/
def pyLower (s : PyStr) : PyStr := s.map charLower

/-- `str.upper`. -/
def pyUpper (s : PyStr) : PyStr := s.map charUpper

/-- Python (ASCII) whitespace, as stripped by `str.strip()` / split by
`str.split()`. -/
def isPySpace (c : Char) : Bool :=
  c == ' ' || c == '\t' || c == '\n' || c == '\r' || c.toNat == 11 || c.toNat == 12

/-- `str.strip()`: drop whitespace from both ends. -/
def pyStrip (s : PyStr) : PyStr :=
  ((s.dropWhile isPySpace).reverse.dropWhile isPySpace).reverse

/-- The Python slice `s[a:b]` (for `0 ≤ a`, `0 ≤ b`). -/
def pySlice (s : PyStr) (a b : Nat) : PyStr := (s.drop a).take (b - a)

/-- `haystack.find(needle)`: index of the first occurrence, `None` for `-1`. -/
def pyFind : PyStr → PyStr → Option Nat
  | s, n =>
    if n.isPrefixOf s then some 0
    else
      match s with
      | [] => none
      | _ :: t => (pyFind t n).map (· + 1)

/-- `needle in haystack` for Python strings. -/
def pyContains (hay needle : PyStr) : Bool :=
  hay.tails.any fun t => needle.isPrefixOf t

/-- The character class of the Python regex `\d` (ASCII digits). -/
def isPyDigit (c : Char) : Bool := '0' ≤ c && c ≤ '9'

/-- The character class of the source regex `[A-Za-zА-Яа-я]`. -/
def isLetterClass (c : Char) : Bool :=
  ('A' ≤ c && c ≤ 'Z') || ('a' ≤ c && c ≤ 'z') ||
    ('А' ≤ c && c ≤ 'Я') || ('а' ≤ c && c ≤ 'я')

/-! ## Document status (`backend/models/document.py`) -/

/-- The members of the `DocumentStatus` enum. -/
inductive DocumentStatus where
  | uploaded
  | processing
  | completed
  | error
deriving DecidableEq, Repr

/-- Attribute lookup `DocumentStatus.<name>` on the enum class: `some`
member for the four defined names, `none` (an `AttributeError`) otherwise. -/
def DocumentStatus.fromName (n : PyStr) : Option DocumentStatus :=
  if n = pys "UPLOADED" then some .uploaded
  else if n = pys "PROCESSING" then some .processing
  else if n = pys "COMPLETED" then some .completed
  else if n = pys "ERROR" then some .error
  else none

/-! ## OCR template engine (`backend/workers/ocr_template_engine.py`) -/

/-- `OCRTemplateEngine._calculate_confidence`: confidence of an extracted
value, computed from the value string alone.  `none`/empty are falsy and
give `0.0`; otherwise base `0.5`, `+0.3` if the stripped value is
non-empty, `+0.1` if it contains a `\d` digit, `+0.1` if it contains a
`[A-Za-zА-Яа-я]` letter, capped at `1.0`. -/
def calculateConfidence : Option PyStr → ℚ
  | none => 0
  | some v =>
    if v = [] then 0
    else
      let c : ℚ := 0.5
      let c : ℚ := if 0 < (pyStrip v).length then c + 0.3 else c
      let c : ℚ := if v.any isPyDigit then c + 0.1 else c
      let c : ℚ := if v.any isLetterClass then c + 0.1 else c
      min c 1

/-- The `keyword_proximity` branch of
`OCRTemplateEngine._extract_field_value`: try the keyword variants in
order with the (case-sensitive) `text.find(keyword)`; on the first hit
return the stripped window
`text[max(0, pos - max_distance) : min(len(text), pos + len(keyword) + max_distance)]`. -/
def keywordProximityExtract (text : PyStr) (keywords : List PyStr)
    (maxDistance : Nat) : Option PyStr :=
  match keywords with
  | [] => none
  | kw :: rest =>
    match pyFind text kw with
    | some pos =>
      some (pyStrip (pySlice text (pos - maxDistance)
        (min text.length (pos + kw.length + maxDistance))))
    | none => keywordProximityExtract text rest maxDistance

/-- The `line_after_keyword` branch of
`OCRTemplateEngine._extract_field_value`: the stripped line after the
first line containing the keyword case-insensitively. -/
def lineAfterKeywordExtract (text : PyStr) (keyword : PyStr) : Option PyStr :=
  if keyword = [] then none
  else
    let rec go : List PyStr → Option PyStr
      | [] => none
      | [_] => none
      | l :: l' :: rest =>
        if pyContains (pyLower l) (pyLower keyword) then some (pyStrip l')
        else go (l' :: rest)
    go (text.splitOn '\n')

/-- One template field as read by the engine: machine name, Russian label
and the tag of its extraction rule. -/
structure FieldDef where
  fieldName : PyStr
  label : PyStr
  ruleType : PyStr
deriving DecidableEq, Repr

/-- One entry of the engine's `extracted_data` map. -/
structure FieldEntry where
  value : Option PyStr
  label : PyStr
  confidence : ℚ
  errMsg : Option PyStr
deriving DecidableEq, Repr

/-- `OCRTemplateEngine._apply_template_extraction`: each field is paired
with the outcome of evaluating its rule (`Except.error` embeds a raised
exception inside `_extract_field_value`).  A successful evaluation is
recorded with its value and `_calculate_confidence`; a raised exception is
caught and recorded as value `None`, confidence `0.0` and the error
message; the loop always continues to the next field. -/
def applyTemplateExtraction
    (fields : List (FieldDef × Except PyStr (Option PyStr))) :
    List (PyStr × FieldEntry) :=
  fields.map fun fr =>
    match fr with
    | (f, .ok v) => (f.fieldName, ⟨v, f.label, calculateConfidence v, none⟩)
    | (f, .error e) => (f.fieldName, ⟨none, f.label, 0, some e⟩)

/-! ## Enhanced OCR worker (`backend/workers/enhanced_ocr_worker.py`) -/

/-- `extracted.split('\n')[0]`. -/
def firstLine (s : PyStr) : PyStr := s.takeWhile (· ≠ '\n')

/-- `extracted.split()[0] if extracted.split() else ""`. -/
def firstWord (s : PyStr) : PyStr :=
  (s.dropWhile isPySpace).takeWhile (fun c => !isPySpace c)

/-- The `keyword` branch of `apply_extraction_rule`: locate the keyword
case-insensitively (`text.lower().find(keyword.lower())`), then take the
stripped 50 characters after it, optionally narrowed to the first line or
the first whitespace-delimited word. -/
def keywordExtract (text keyword : PyStr) (extractType : Option PyStr) :
    Option PyStr :=
  if keyword = [] then none
  else
    match pyFind (pyLower text) (pyLower keyword) with
    | none => none
    | some pos =>
      let startPos := pos + keyword.length
      let extracted := pyStrip (pySlice text startPos (startPos + 50))
      let extracted :=
        if extractType = some (pys "line") then pyStrip (firstLine extracted)
        else if extractType = some (pys "word") then firstWord extracted
        else extracted
      some extracted

/-- One regex match, as produced by `re.finditer` / `re.search`:
`g0 = match.group(0)`, `g1? = match.group(1)` when the pattern has a
capturing group, plus `match.start()` / `match.end()`. -/
structure ReMatch where
  g0 : PyStr
  g1? : Option PyStr
  start : Nat
  stop : Nat
deriving DecidableEq, Repr

/-- The `regex` branch of `apply_extraction_rule`, as a function of the
match list (`re.search` returns the first match): group 1 if the pattern
has a capturing group, else the full match; `None` when there is no
match.  No confidence is attached by the worker. -/
def applyExtractionRuleRegex (ms : List ReMatch) : Option PyStr :=
  match ms with
  | [] => none
  | m :: _ =>
    some (match m.g1? with
      | some g => g
      | none => m.g0)

/-- One entry of the worker's `extracted_fields` map. -/
structure WorkerEntry where
  value : PyStr
  labelRu : PyStr
  extractionMethod : PyStr
deriving DecidableEq, Repr

/-- The per-field loop of `process_document_with_template`: each field is
paired with the outcome of `apply_extraction_rule` (an `Except.error`
embeds a raised exception).  A raised exception is caught and the loop
`continue`s — the field is *skipped*, nothing is recorded for it; a falsy
(`None` or empty) extracted value is also skipped. -/
def workerExtractFields
    (fields : List (FieldDef × Except PyStr (Option PyStr))) :
    List (PyStr × WorkerEntry) :=
  fields.filterMap fun fr =>
    match fr with
    | (f, .ok (some v)) =>
      if v = [] then none
      else some (f.fieldName, ⟨v, f.label, f.ruleType⟩)
    | (_, .ok none) => none
    | (_, .error _) => none

/-! ## Async OCR dispatcher (`backend/services/async_ocr_service.py`) -/

/-- `AsyncOCRService.max_sync_size` (`5 * 1024 * 1024`). -/
def maxSyncSize : Nat := 5 * 1024 * 1024

/-- Observable outcome of one `process_document_async` call. -/
inductive DispatchOutcome (α : Type) where
  /-- The inline path ran to completion: the call returns
  `{"status": "completed", ...}` with the OCR result. -/
  | completed (result : α)
  /-- The background path was chosen: the call returns
  `{"status": "queued", "job_id": ...}` immediately. -/
  | queued (jobId : PyStr)
  /-- An exception propagated out of the call. -/
  | raised (msg : PyStr)
deriving DecidableEq, Repr

/-- The failure handler of `process_document_async` / `_process_sync`
evaluates `DocumentStatus.FAILED`; the enum has no such member, so the
handler itself raises `AttributeError` and no status or error detail is
written to the document. -/
def dispatcherFail (α : Type) : DispatchOutcome α :=
  match DocumentStatus.fromName (pys "FAILED") with
  | some _ => .raised (pys "ProcessingError")
  | none => .raised (pys "AttributeError: FAILED")

/-- `AsyncOCRService.process_document_async`, as a function of the
`force_background` flag, the file's existence and size, the synchronous
OCR outcome (success flag × result; `Except.error` embeds a raised
exception) and the Celery job id.  Inline processing is chosen iff
`not force_background and file_size <= max_sync_size`. -/
def processDocumentAsync {α : Type} (forceBackground fileExists : Bool)
    (fileSize : Nat) (ocr : Except PyStr (Bool × α)) (jobId : PyStr) :
    DispatchOutcome α :=
  if !fileExists then dispatcherFail α
  else if !forceBackground && decide (fileSize ≤ maxSyncSize) then
    match ocr with
    | .ok (true, r) => .completed r
    | .ok (false, _) => dispatcherFail α
    | .error _ => dispatcherFail α
  else .queued jobId

/-! ## Template administration (`backend/api/admin.py`) -/

/-- One row of the `declaration_templates` table (the columns the
activation logic touches). -/
structure TemplateRec where
  tid : Nat
  name : PyStr
  isActive : Bool
deriving DecidableEq, Repr

/-- `db.query(DeclarationTemplate).update({DeclarationTemplate.is_active: False})`:
clear the active flag on every row. -/
def deactivateAll (ts : List TemplateRec) : List TemplateRec :=
  ts.map fun t => { t with isActive := false }

/-- Set the flag on the single row fetched by
`filter(DeclarationTemplate.id == template_id).first()` (ids are the
primary key; `.first()` mutates the first matching row). -/
def setIsActiveFirst : List TemplateRec → Nat → Bool → List TemplateRec
  | [], _, _ => []
  | t :: ts, tid, b =>
    if t.tid = tid then { t with isActive := b } :: ts
    else t :: setIsActiveFirst ts tid b

/-- The `is_active` branch of `update_template`: `None` embeds the 404 on
an unknown id; when activating, all rows are deactivated first and then
the target row's flag is set. -/
def updateTemplateActive (ts : List TemplateRec) (tid : Nat) (b : Bool) :
    Option (List TemplateRec) :=
  if ts.any (fun t => t.tid = tid) then
    some (setIsActiveFirst (if b then deactivateAll ts else ts) tid b)
  else none

/-- Activating a template through `update_template(id, is_active=True)`. -/
def setActive (ts : List TemplateRec) (tid : Nat) : Option (List TemplateRec) :=
  updateTemplateActive ts tid true

/-- `create_template`: when `is_active` is requested, all other rows are
deactivated first; the new row is appended. -/
def createTemplate (ts : List TemplateRec) (newId : Nat) (nm : PyStr)
    (b : Bool) : List TemplateRec :=
  (if b then deactivateAll ts else ts) ++ [⟨newId, nm, b⟩]

/-- `delete_template` (404 on unknown id keeps the state; the cascade to
fields is outside this model). -/
def deleteTemplate (ts : List TemplateRec) (tid : Nat) : List TemplateRec :=
  match ts with
  | [] => []
  | t :: rest => if t.tid = tid then rest else t :: deleteTemplate rest tid

/-- The admin write operations that touch template rows. -/
inductive AdminOp where
  | create (newId : Nat) (nm : PyStr) (isActive : Bool)
  | updateActive (tid : Nat) (isActive : Bool)
  | updateOther (tid : Nat)
  | delete (tid : Nat)

/-- Effect of one admin operation on the template table (a 404 leaves the
table unchanged; `updateOther` covers `update_template` calls that do not
pass `is_active`, which never touch the flags). -/
def applyAdminOp (ts : List TemplateRec) : AdminOp → List TemplateRec
  | .create newId nm b => createTemplate ts newId nm b
  | .updateActive tid b => (updateTemplateActive ts tid b).getD ts
  | .updateOther _ => ts
  | .delete tid => deleteTemplate ts tid

/-- Number of rows with `is_active == True`. -/
def activeCount (ts : List TemplateRec) : Nat :=
  (ts.filter fun t => t.isActive).length

/-! ## Declaration generation service
(`backend/services/declaration_generation_service.py`) -/

/-- Keywords of the first context boost of `_extract_field_value`. -/
def declKeywords : List PyStr :=
  [pys "декларация", pys "таможенная", pys "грузовая"]

/-- Keywords of the second context boost of `_extract_field_value`. -/
def partyKeywords : List PyStr :=
  [pys "отправитель", pys "получатель", pys "декларант"]

/-- The lowercased context window
`text[max(0, match.start() - 50) : min(len(text), match.end() + 50)].lower()`
inspected by the boost checks of `_extract_field_value`. -/
def ctxWindow (text : PyStr) (m : ReMatch) : PyStr :=
  pyLower (pySlice text (m.start - 50) (min text.length (m.stop + 50)))

/-- The confidence attached to one regex match by `_extract_field_value`:
base `0.7`, `+0.1` if a declaration-domain keyword occurs in the
lowercased 50-character context window around the match, `+0.1` if a
party-role keyword occurs in the same window. -/
def matchConfidence (text : PyStr) (m : ReMatch) : ℚ :=
  let ctx := ctxWindow text m
  let c : ℚ := 0.7
  let c : ℚ := if declKeywords.any (fun kw => pyContains ctx kw) then c + 0.1 else c
  let c : ℚ := if partyKeywords.any (fun kw => pyContains ctx kw) then c + 0.1 else c
  c

/-- The per-match update of the pattern loop: keep the new candidate only
when its confidence is strictly greater than the best so far. -/
def svcStep (text : PyStr) (best : Option PyStr × ℚ) (m : ReMatch) :
    Option PyStr × ℚ :=
  if best.2 < matchConfidence text m then
    (some (pyStrip m.g0), matchConfidence text m)
  else best

/-- `DeclarationGenerationService._extract_field_value`, as a function of
the `re.finditer` output of each configured pattern (in authoring order)
and of the custom extractor outcomes.  The pattern loop uses the *full*
match (`match.group().strip()`); the extractor loop applies the same
strictly-greater update; the final confidence is capped at `1.0`. -/
def extractFieldValueSvc (text : PyStr) (patMatches : List (List ReMatch))
    (extractorResults : List (Option PyStr × ℚ)) : Option PyStr × ℚ :=
  let best := patMatches.foldl
    (fun best ms => ms.foldl (svcStep text) best) ((none : Option PyStr), (0 : ℚ))
  let best := extractorResults.foldl
    (fun best vc => if best.2 < vc.2 then vc else best) best
  (best.1, min best.2 1)

/-- The candidate list `_extract_field_value` scans, in traversal order:
for each pattern, each match's stripped full text with its confidence. -/
def svcCandidates (text : PyStr) (patMatches : List (List ReMatch)) :
    List (PyStr × ℚ) :=
  (patMatches.map fun ms =>
    ms.map fun m => (pyStrip m.g0, matchConfidence text m)).flatten

/-- First element of a candidate list whose confidence is maximal (a
strictly later candidate never displaces an equally confident earlier
one). -/
def firstArgmax {α : Type} : List (α × ℚ) → Option (α × ℚ)
  | [] => none
  | c :: cs =>
    match firstArgmax cs with
    | none => some c
    | some m => if c.2 < m.2 then some m else some c

/-- The strictly-greater best-candidate update
(`if confidence > best_confidence:` keeps the new candidate). -/
def bestUpdate {α : Type} (b : Option α × ℚ) (vc : α × ℚ) : Option α × ℚ :=
  if b.2 < vc.2 then (some vc.1, vc.2) else b

/-- Case-insensitive prefix test (both sides lowercased). -/
def ciPrefix (pat s : PyStr) : Bool :=
  (pyLower pat).isPrefixOf (pyLower s)

/-- Scan of `re.finditer` for a literal pattern: leftmost,
non-overlapping, case-insensitive occurrences.  The fuel bounds the scan
length (each step consumes at least one character, so `text.length` fuel
suffices). -/
def ciLitFinditerAux (pat : PyStr) : Nat → PyStr → Nat → List ReMatch
  | 0, _, _ => []
  | _ + 1, [], _ => []
  | fuel + 1, c :: rest, off =>
    if pat ≠ [] ∧ ciPrefix pat (c :: rest) then
      { g0 := (c :: rest).take pat.length, g1? := none,
        start := off, stop := off + pat.length }
        :: ciLitFinditerAux pat fuel ((c :: rest).drop pat.length)
          (off + pat.length)
    else ciLitFinditerAux pat fuel rest (off + 1)

/-- `re.finditer(pattern, text, re.IGNORECASE | re.MULTILINE)` for a
non-empty literal pattern (no metacharacters, no groups;
case-insensitivity is per-character, `MULTILINE` only affects anchors). -/
def ciLitFinditer (pat text : PyStr) : List ReMatch :=
  ciLitFinditerAux pat text.length text 0

/-- `re.finditer` for a pattern `pre(grp)post` built from literals with a
single capturing group: the matches of the literal `pre ++ grp ++ post`,
with `group(1)` the slice of the matched text under the group. -/
def ciLitGroupFinditer (pre grp post text : PyStr) : List ReMatch :=
  (ciLitFinditer (pre ++ grp ++ post) text).map fun m =>
    { m with g1? := some ((m.g0.drop pre.length).take grp.length) }

/-- `round(x, 1)` (round half to even, as Python's `round`), on exact
rationals. -/
def pyRound1 (q : ℚ) : ℚ :=
  let x := q * 10
  let f := ⌊x⌋
  let r := x - f
  (if r < 1/2 then f
   else if 1/2 < r then f + 1
   else if f % 2 = 0 then f else f + 1 : ℚ) / 10

/-- The summary statistics block of `generate_declaration_from_ocr`:
`completion_percentage = round((filled_fields / total_fields) * 100, 1)`
with *no* guard on `total_fields == 0` — the division raises
`ZeroDivisionError` there, embedded as `none`. -/
def completionPercentage (totalFields filledFields : Nat) : Option ℚ :=
  if totalFields = 0 then none
  else some (pyRound1 ((filledFields : ℚ) / (totalFields : ℚ) * 100))

/-! ## Reference data service (`backend/services/reference_data_service.py`) -/

/-- JSON-ish values stored in the `extracted_data` dict. -/
inductive Val where
  | vs (s : PyStr)
  | vb (b : Bool)
  | vn (n : Nat)
deriving DecidableEq, Repr

/-- A Python dict with string keys, as an association list without
duplicate keys (insertion order preserved). -/
abbrev Dict := List (PyStr × Val)

/-- `d[k]` / `k in d`: value at the first occurrence of the key. -/
def dget : Dict → PyStr → Option Val
  | [], _ => none
  | (k', v) :: rest, k => if k' = k then some v else dget rest k

/-- `d[k] = v`: replace the value at an existing key in place, else append
the new pair (Python dict assignment). -/
def dset : Dict → PyStr → Val → Dict
  | [], k, v => [(k, v)]
  | (k', v') :: rest, k, v =>
    if k' = k then (k', v) :: rest else (k', v') :: dset rest k v

/-- `s.endswith(suffix)`. -/
def pyEndsWith (s suf : PyStr) : Bool := suf.reverse.isPrefixOf s.reverse

/-- One row of the static reference tables (`code`, `name_ru`, `name_en`). -/
structure RefInfo where
  code : PyStr
  nameRu : PyStr
  nameEn : PyStr
deriving DecidableEq, Repr

/-- Exact-key lookup in a static table. -/
def tableGet : List (PyStr × RefInfo) → PyStr → Option RefInfo
  | [], _ => none
  | (k, v) :: rest, key => if k = key then some v else tableGet rest key

/-- `ReferenceDataService.country_codes`. -/
def countryCodes : List (PyStr × RefInfo) :=
  [(pys "КАЗАХСТАН", ⟨pys "398", pys "КАЗАХСТАН", pys "KAZAKHSTAN"⟩),
   (pys "РОССИЯ", ⟨pys "643", pys "РОССИЯ", pys "RUSSIA"⟩),
   (pys "УЗБЕКИСТАН", ⟨pys "860", pys "УЗБЕКИСТАН", pys "UZBEKISTAN"⟩),
   (pys "КИТАЙ", ⟨pys "156", pys "КИТАЙ", pys "CHINA"⟩),
   (pys "ГЕРМАНИЯ", ⟨pys "276", pys "ГЕРМАНИЯ", pys "GERMANY"⟩),
   (pys "США", ⟨pys "840", pys "США", pys "USA"⟩),
   (pys "ГОНКОНГ", ⟨pys "344", pys "ГОНКОНГ", pys "HONG KONG"⟩),
   (pys "ЯПОНИЯ", ⟨pys "392", pys "ЯПОНИЯ", pys "JAPAN"⟩),
   (pys "КОРЕЯ", ⟨pys "410", pys "КОРЕЯ", pys "SOUTH KOREA"⟩),
   (pys "ТУРЦИЯ", ⟨pys "792", pys "ТУРЦИЯ", pys "TURKEY"⟩)]

/-- `ReferenceDataService.currency_codes`. -/
def currencyCodes : List (PyStr × RefInfo) :=
  [(pys "UZS", ⟨pys "860", pys "СУМ УЗБЕКИСТАНА", pys "UZBEKISTAN SUM"⟩),
   (pys "USD", ⟨pys "840", pys "ДОЛЛАР США", pys "US DOLLAR"⟩),
   (pys "EUR", ⟨pys "978", pys "ЕВРО", pys "EURO"⟩),
   (pys "RUB", ⟨pys "643", pys "РОССИЙСКИЙ РУБЛЬ", pys "RUSSIAN RUBLE"⟩),
   (pys "KZT", ⟨pys "398", pys "ТЕНГЕ", pys "TENGE"⟩),
   (pys "CNY", ⟨pys "156", pys "ЮАНЬ", pys "YUAN"⟩)]

/-- The railway row of `transport_types` (`self.transport_types['ЖД']`). -/
def transportZhd : RefInfo := ⟨pys "20", pys "ЖЕЛЕЗНОДОРОЖНЫЙ", pys "RAILWAY"⟩

/-- The road row of `transport_types`. -/
def transportAvto : RefInfo := ⟨pys "30", pys "АВТОМОБИЛЬНЫЙ", pys "ROAD"⟩

/-- The air row of `transport_types`. -/
def transportAvia : RefInfo := ⟨pys "40", pys "ВОЗДУШНЫЙ", pys "AIR"⟩

/-- The sea row of `transport_types`. -/
def transportMore : RefInfo := ⟨pys "10", pys "МОРСКОЙ", pys "SEA"⟩

/-- `ReferenceDataService.transport_types`. -/
def transportTypes : List (PyStr × RefInfo) :=
  [(pys "ЖД", transportZhd), (pys "АВТО", transportAvto),
   (pys "АВИА", transportAvia), (pys "МОРЕ", transportMore),
   (pys "РЕЧНОЙ", ⟨pys "80", pys "РЕЧНОЙ", pys "INLAND WATERWAY"⟩)]

/-- The import row of `declaration_types`. -/
def declIm : RefInfo := ⟨pys "10", pys "ИМПОРТ", pys "IMPORT"⟩

/-- The export row of `declaration_types`. -/
def declEk : RefInfo := ⟨pys "20", pys "ЭКСПОРТ", pys "EXPORT"⟩

/-- The transit row of `declaration_types`. -/
def declTr : RefInfo := ⟨pys "30", pys "ТРАНЗИТ", pys "TRANSIT"⟩

/-- `ReferenceDataService.declaration_types`. -/
def declarationTypes : List (PyStr × RefInfo) :=
  [(pys "ИМ", declIm), (pys "ЭК", declEk), (pys "ТР", declTr),
   (pys "РЕ", ⟨pys "40", pys "РЕИМПОРТ", pys "REIMPORT"⟩),
   (pys "РЭ", ⟨pys "50", pys "РЕЭКСПОРТ", pys "REEXPORT"⟩)]

/-- `find_country_by_name`: exact match on the uppercased, stripped text,
then the first table entry whose key contains, or is contained in, the
text. -/
def findCountryByName (s : PyStr) : Option RefInfo :=
  let tu := pyStrip (pyUpper s)
  match tableGet countryCodes tu with
  | some d => some d
  | none =>
    (countryCodes.find? fun kd =>
      pyContains tu kd.1 || pyContains kd.1 tu).map (·.2)

/-- `find_currency_by_code_or_name`: exact code match, then the first
entry whose Russian or English name contains the text. -/
def findCurrencyByCodeOrName (s : PyStr) : Option RefInfo :=
  let tu := pyStrip (pyUpper s)
  match tableGet currencyCodes tu with
  | some d => some d
  | none =>
    (currencyCodes.find? fun kd =>
      pyContains kd.2.nameRu tu || pyContains kd.2.nameEn tu).map (·.2)

/-- `find_transport_type`: exact match, then hardcoded substring
patterns. -/
def findTransportType (s : PyStr) : Option RefInfo :=
  let tu := pyStrip (pyUpper s)
  match tableGet transportTypes tu with
  | some d => some d
  | none =>
    if pyContains tu (pys "ЖД") || pyContains tu (pys "ЖЕЛЕЗН") ||
        pyContains tu (pys "RAILWAY") then some transportZhd
    else if pyContains tu (pys "АВТО") || pyContains tu (pys "ROAD") ||
        pyContains tu (pys "TRUCK") then some transportAvto
    else if pyContains tu (pys "АВИА") || pyContains tu (pys "AIR") ||
        pyContains tu (pys "FLIGHT") then some transportAvia
    else if pyContains tu (pys "МОР") || pyContains tu (pys "SEA") ||
        pyContains tu (pys "SHIP") then some transportMore
    else none

/-- `find_declaration_type`: exact match, then hardcoded substring
patterns. -/
def findDeclarationType (s : PyStr) : Option RefInfo :=
  let tu := pyStrip (pyUpper s)
  match tableGet declarationTypes tu with
  | some d => some d
  | none =>
    if pyContains tu (pys "ИМПОРТ") || pyContains tu (pys "IMPORT") then
      some declIm
    else if pyContains tu (pys "ЭКСПОРТ") || pyContains tu (pys "EXPORT") then
      some declEk
    else if pyContains tu (pys "ТРАНЗИТ") || pyContains tu (pys "TRANSIT") then
      some declTr
    else none

/-- Keys written by the country block of `enhance_extracted_data`. -/
def countryWrites : List (PyStr × (RefInfo → Val)) :=
  [(pys "dispatch_country_code", fun i => .vs i.code),
   (pys "dispatch_country_enhanced", fun _ => .vb true)]

/-- Keys written by the currency block of `enhance_extracted_data`. -/
def currencyWrites : List (PyStr × (RefInfo → Val)) :=
  [(pys "currency_code_numeric", fun i => .vs i.code),
   (pys "currency_name", fun i => .vs i.nameRu),
   (pys "currency_enhanced", fun _ => .vb true)]

/-- Keys written by the transport block of `enhance_extracted_data`. -/
def transportWrites : List (PyStr × (RefInfo → Val)) :=
  [(pys "transport_type_code", fun i => .vs i.code),
   (pys "transport_type_name", fun i => .vs i.nameRu),
   (pys "transport_enhanced", fun _ => .vb true)]

/-- Keys written by the declaration-type block of
`enhance_extracted_data`. -/
def declWrites : List (PyStr × (RefInfo → Val)) :=
  [(pys "declaration_type_code", fun i => .vs i.code),
   (pys "declaration_type_enhanced", fun _ => .vb true)]

/-- One `if '<field>' in extracted_data:` block of
`enhance_extracted_data`: the lookup reads the *original* dict `src`; on a
hit the block's keys are written into the accumulating enhanced dict `e`.
A non-string field value raises in Python (`AttributeError` inside
`.upper()`); the embedding is used only on well-formed dicts (see
`wellFormedSrc`). -/
def enhanceStage (src : Dict) (srcKey : PyStr)
    (lookupFn : PyStr → Option RefInfo)
    (writes : List (PyStr × (RefInfo → Val))) (e : Dict) : Dict :=
  match dget src srcKey with
  | some (Val.vs s) =>
    match lookupFn s with
    | some info => writes.foldl (fun acc kv => dset acc kv.1 (kv.2 info)) e
    | none => e
  | _ => e

/-- Number of keys ending in `'_enhanced'`
(`sum(1 for key in enhanced_data.keys() if key.endswith('_enhanced'))`). -/
def countEnhanced (e : Dict) : Nat :=
  (e.map (·.1)).countP fun k => pyEndsWith k (pys "_enhanced")

/-- The key of the enhancement-statistics entry. -/
def refStatsKey : PyStr := pys "reference_data_enhancements"

/-- `ReferenceDataService.enhance_extracted_data`. -/
def enhanceExtractedData (d : Dict) : Dict :=
  let e := d
  let e := enhanceStage d (pys "dispatch_country") findCountryByName
    countryWrites e
  let e := enhanceStage d (pys "currency_code") findCurrencyByCodeOrName
    currencyWrites e
  let e := enhanceStage d (pys "transport_identity_departure")
    findTransportType transportWrites e
  let e := enhanceStage d (pys "declaration_type") findDeclarationType
    declWrites e
  dset e refStatsKey (.vn (countEnhanced e))

/-- The value at a source field is a string (or the field is absent): the
region where the embedding of `enhance_extracted_data` is faithful (a
non-string value would raise `AttributeError` in Python). -/
def srcIsStr (d : Dict) (k : PyStr) : Bool :=
  match dget d k with
  | some (Val.vb _) => false
  | some (Val.vn _) => false
  | _ => true

/-- All four looked-up source fields hold strings when present. -/
def wellFormedSrc (d : Dict) : Bool :=
  srcIsStr d (pys "dispatch_country") && srcIsStr d (pys "currency_code") &&
    srcIsStr d (pys "transport_identity_departure") &&
    srcIsStr d (pys "declaration_type")

/-- The keys `enhance_extracted_data` may write. -/
def derivedKeys : List PyStr :=
  (countryWrites ++ currencyWrites ++ transportWrites ++ declWrites).map (·.1)
    ++ [refStatsKey]

/-! ## Helper lemmas -/

theorem mem_dropWhile_of_not {p : Char → Bool} {c : Char} :
    ∀ {l : PyStr}, c ∈ l → p c = false → c ∈ l.dropWhile p := by
  intro l hc hp
  induction l with
  | nil => cases hc
  | cons a t ih =>
    by_cases ha : p a
    · rw [List.dropWhile_cons_of_pos ha]
      rcases List.mem_cons.mp hc with h | h
      · subst h; rw [hp] at ha; cases ha
      · exact ih h
    · rw [List.dropWhile_cons_of_neg ha]; exact hc

/-- A non-whitespace character survives `str.strip()`. -/
theorem mem_pyStrip_of_not_space {c : Char} {l : PyStr} (hc : c ∈ l)
    (hp : isPySpace c = false) : c ∈ pyStrip l := by
  unfold pyStrip
  rw [List.mem_reverse]
  apply mem_dropWhile_of_not _ hp
  rw [List.mem_reverse]
  exact mem_dropWhile_of_not hc hp

/-- If `str.strip()` is empty, every character was whitespace. -/
theorem all_space_of_pyStrip_nil {l : PyStr} (h : pyStrip l = []) :
    ∀ c ∈ l, isPySpace c = true := by
  intro c hc
  by_contra hp
  have := mem_pyStrip_of_not_space hc (by simpa using hp)
  rw [h] at this
  cases this

theorem char_le_iff_toNat {a b : Char} : a ≤ b ↔ a.toNat ≤ b.toNat :=
  Iff.rfl

theorem not_pySpace_of_toNat {c : Char} (h14 : 14 ≤ c.toNat)
    (h32 : c.toNat ≠ 32) : isPySpace c = false := by
  simp only [isPySpace, Bool.or_eq_false_iff, beq_eq_false_iff_ne, ne_eq]
  refine ⟨⟨⟨⟨⟨?_, ?_⟩, ?_⟩, ?_⟩, ?_⟩, ?_⟩
  · intro hc; subst hc; exact h32 (by decide)
  · intro hc; subst hc; exact absurd h14 (by decide)
  · intro hc; subst hc; exact absurd h14 (by decide)
  · intro hc; subst hc; exact absurd h14 (by decide)
  · omega
  · omega

theorem isPyDigit_not_space {c : Char} (h : isPyDigit c = true) :
    isPySpace c = false := by
  simp only [isPyDigit, Bool.and_eq_true, decide_eq_true_eq] at h
  have h1 := char_le_iff_toNat.mp h.1
  have h2 := char_le_iff_toNat.mp h.2
  have e1 : ('0' : Char).toNat = 48 := by decide
  have e2 : ('9' : Char).toNat = 57 := by decide
  exact not_pySpace_of_toNat (by omega) (by omega)

theorem isLetterClass_not_space {c : Char} (h : isLetterClass c = true) :
    isPySpace c = false := by
  simp only [isLetterClass, Bool.or_eq_true, Bool.and_eq_true,
    decide_eq_true_eq] at h
  have eA : ('A' : Char).toNat = 65 := by decide
  have ea : ('a' : Char).toNat = 97 := by decide
  have eC : ('А' : Char).toNat = 1040 := by decide
  have ec : ('а' : Char).toNat = 1072 := by decide
  rcases h with ((⟨h1, _⟩ | ⟨h1, _⟩) | ⟨h1, _⟩) | ⟨h1, _⟩ <;>
    have := char_le_iff_toNat.mp h1 <;>
    exact not_pySpace_of_toNat (by omega) (by omega)

/-- If the stripped value is empty, the `\d` check fails. -/
theorem any_digit_false_of_strip_nil {v : PyStr} (h : pyStrip v = []) :
    v.any isPyDigit = false := by
  rw [List.any_eq_false]
  intro c hc hd
  have := all_space_of_pyStrip_nil h c hc
  rw [isPyDigit_not_space hd] at this
  cases this

/-- If the stripped value is empty, the letter-class check fails. -/
theorem any_letter_false_of_strip_nil {v : PyStr} (h : pyStrip v = []) :
    v.any isLetterClass = false := by
  rw [List.any_eq_false]
  intro c hc hd
  have := all_space_of_pyStrip_nil h c hc
  rw [isLetterClass_not_space hd] at this
  cases this

/-- `_calculate_confidence` on a truthy value, with the `+=` chain written
as one sum. -/
theorem calculateConfidence_some (l : PyStr) (h : ¬l = []) :
    calculateConfidence (some l) =
      min ((0.5 : ℚ) + (if 0 < (pyStrip l).length then (0.3 : ℚ) else 0)
        + (if l.any isPyDigit then (0.1 : ℚ) else 0)
        + (if l.any isLetterClass then (0.1 : ℚ) else 0)) 1 := by
  simp only [calculateConfidence, if_neg h]
  split_ifs <;> ring_nf

/-- Any value with non-whitespace content scores at least `0.8`. -/
theorem calculateConfidence_ge_of_strip {l : PyStr} (hs : pyStrip l ≠ []) :
    0.8 ≤ calculateConfidence (some l) := by
  have hl : ¬l = [] := by
    intro he; rw [he] at hs; exact hs rfl
  rw [calculateConfidence_some l hl, if_pos (List.length_pos.mpr hs)]
  refine le_min ?_ (by norm_num)
  split_ifs <;> norm_num

/-! ## Claim C10 -/

/-- C10 (amended): in the OCR template engine the confidence of an
extracted field is a function of the value string alone: a null or empty
value yields `0.0`; a non-empty value whose `strip()` is empty yields
`0.5`; a value with non-whitespace content yields at least `0.8`
(base `0.5 + 0.3`, `+0.1` for a digit, `+0.1` for a letter, capped at
`1.0`); every confidence lies in `{0.0, 0.5} ∪ [0.8, 1.0]`. -/
theorem confidence_value_classification :
    calculateConfidence none = 0 ∧ calculateConfidence (some []) = 0 ∧
    (∀ l : PyStr, l ≠ [] → pyStrip l = [] →
      calculateConfidence (some l) = 0.5) ∧
    (∀ l : PyStr, pyStrip l ≠ [] → 0.8 ≤ calculateConfidence (some l)) ∧
    (∀ v : Option PyStr, calculateConfidence v = 0 ∨
      calculateConfidence v = 0.5 ∨
      (0.8 ≤ calculateConfidence v ∧ calculateConfidence v ≤ 1)) := by
  have hmid : ∀ l : PyStr, l ≠ [] → pyStrip l = [] →
      calculateConfidence (some l) = 0.5 := by
    intro l hl hs
    rw [calculateConfidence_some l hl, if_neg (by rw [hs]; simp),
      any_digit_false_of_strip_nil hs, any_letter_false_of_strip_nil hs]
    norm_num
  have hge : ∀ l : PyStr, pyStrip l ≠ [] →
      0.8 ≤ calculateConfidence (some l) :=
    fun l hs => calculateConfidence_ge_of_strip hs
  refine ⟨rfl, by simp [calculateConfidence], hmid, hge, ?_⟩
  intro v
  match v with
  | none => exact Or.inl rfl
  | some l =>
    by_cases hl : l = []
    · subst hl; exact Or.inl (by simp [calculateConfidence])
    · by_cases hs : pyStrip l = []
      · exact Or.inr (Or.inl (hmid l hl hs))
      · refine Or.inr (Or.inr ⟨hge l hs, ?_⟩)
        rw [calculateConfidence_some l hl]
        exact min_le_right _ _

/-- C10 (counterexample): the one-space value is non-empty but gets
confidence `0.5`, not at least `0.8` — the claimed range
`{0.0} ∪ [0.8, 1.0]` is wrong for whitespace-only values. -/
theorem confidence_whitespace_counterexample :
    ([' '] : PyStr) ≠ [] ∧ calculateConfidence (some [' ']) = 0.5 ∧
      ¬(0.8 ≤ calculateConfidence (some [' '])) := by
  have h : calculateConfidence (some [' ']) = 0.5 := by
    rw [calculateConfidence_some _ (by decide), if_neg (by decide),
      if_neg (by decide), if_neg (by decide)]
    norm_num
  exact ⟨by decide, h, by rw [h]; norm_num⟩

/-- C10 witness: a concrete value with letters and digits. -/
theorem confidence_value_classification_witness :
    pyStrip (pys "АИ-95") ≠ [] ∧
      0.8 ≤ calculateConfidence (some (pys "АИ-95")) :=
  ⟨by decide, confidence_value_classification.2.2.2.1 (pys "АИ-95") (by decide)⟩

/-! ## Claim C7 -/

/-- C7 (code bug): the failure handler of `process_document_async` reads
`DocumentStatus.FAILED`, but the enum defines no such member (the
terminal member is `ERROR`), so the handler raises `AttributeError` and
the document is never moved to the `'error'` status with its error
detail. -/
theorem dispatcher_failed_member_missing :
    DocumentStatus.fromName (pys "FAILED") = none ∧
    DocumentStatus.fromName (pys "ERROR") = some DocumentStatus.error ∧
    ∀ (α : Type) (fb : Bool) (size : Nat) (ocr : Except PyStr (Bool × α))
      (jid : PyStr),
      processDocumentAsync fb false size ocr jid =
        DispatchOutcome.raised (pys "AttributeError: FAILED") := by
  refine ⟨by decide, by decide, ?_⟩
  intro α fb size ocr jid
  have h : DocumentStatus.fromName (pys "FAILED") = none := by decide
  simp [processDocumentAsync, dispatcherFail, h]

/-! ## Claim C3 -/

/-- C3 (code bug): `completion_percentage` is
`round(filled/total * 100, 1)` for a non-empty template, but the
`total_fields == 0` case has no guard — the division raises
`ZeroDivisionError` (embedded as `none`) instead of producing `0.0`. -/
theorem completion_percentage_stats :
    (∀ filled : Nat, completionPercentage 0 filled = none) ∧
    ∀ total filled : Nat,
      completionPercentage (total + 1) filled =
        some (pyRound1 ((filled : ℚ) / ((total : ℚ) + 1) * 100)) := by
  refine ⟨fun filled => by simp [completionPercentage], ?_⟩
  intro total filled
  simp only [completionPercentage, Nat.succ_ne_zero, if_false]
  norm_cast

/-! ## Claim C6 -/

/-- C6 (confirmed): with `force_background` false and file size at most
the 5 MiB threshold, dispatch runs the OCR inline and the call returns
the completed result; with `force_background` true or a larger file, the
document is enqueued and the call returns the job handle. -/
theorem sync_async_boundary :
    maxSyncSize = 5242880 ∧
    (∀ (α : Type) (size : Nat) (r : α) (jid : PyStr), size ≤ maxSyncSize →
      processDocumentAsync false true size (Except.ok (true, r)) jid =
        DispatchOutcome.completed r) ∧
    (∀ (α : Type) (size : Nat) (ocr : Except PyStr (Bool × α))
      (jid : PyStr), maxSyncSize < size →
      processDocumentAsync false true size ocr jid =
        DispatchOutcome.queued jid) ∧
    ∀ (α : Type) (size : Nat) (ocr : Except PyStr (Bool × α)) (jid : PyStr),
      processDocumentAsync true true size ocr jid =
        DispatchOutcome.queued jid := by
  refine ⟨rfl, ?_, ?_, ?_⟩
  · intro α size r jid hle
    simp [processDocumentAsync, hle]
  · intro α size ocr jid hlt
    simp [processDocumentAsync, Nat.not_le.mpr hlt]
  · intro α size ocr jid
    simp [processDocumentAsync]

/-- C6 witness: the 4 MiB file is processed inline and completed; the
6 MiB file is queued. -/
theorem sync_async_boundary_witness :
    processDocumentAsync false true 4194304 (Except.ok (true, (7 : Nat)))
        (pys "job-1") = DispatchOutcome.completed 7 ∧
    processDocumentAsync (α := Nat) false true 6291456
        (Except.ok (true, 7)) (pys "job-1") =
      DispatchOutcome.queued (pys "job-1") :=
  ⟨sync_async_boundary.2.1 Nat 4194304 7 (pys "job-1") (by decide),
   sync_async_boundary.2.2.1 Nat 6291456 (Except.ok (true, 7)) (pys "job-1")
     (by decide)⟩

/-! ## Selection lemmas for the pattern loop -/

theorem firstArgmax_eq_none_iff {α : Type} {cs : List (α × ℚ)} :
    firstArgmax cs = none ↔ cs = [] := by
  cases cs with
  | nil => simp [firstArgmax]
  | cons c cs =>
    simp only [firstArgmax]
    cases firstArgmax cs with
    | none => simp
    | some m =>
      dsimp only
      split_ifs <;> simp

theorem foldl_bestUpdate_some {α : Type} {cs : List (α × ℚ)} {m : α × ℚ}
    (h : firstArgmax cs = some m) :
    ∀ init : Option α × ℚ,
      cs.foldl bestUpdate init =
        if init.2 < m.2 then (some m.1, m.2) else init := by
  induction cs generalizing m with
  | nil => cases h
  | cons c cs ih =>
    intro init
    rw [List.foldl_cons]
    simp only [firstArgmax] at h
    cases h2 : firstArgmax cs with
    | none =>
      rw [h2] at h
      dsimp only at h
      injection h with h
      subst h
      rw [firstArgmax_eq_none_iff.mp h2]
      rfl
    | some m' =>
      rw [h2] at h
      dsimp only at h
      rw [ih h2]
      by_cases hc : c.2 < m'.2
      · rw [if_pos hc] at h
        injection h with h; subst h
        by_cases hi : init.2 < c.2
        · rw [show bestUpdate init c = (some c.1, c.2) from if_pos hi,
            if_pos hc, if_pos (lt_trans hi hc)]
        · rw [show bestUpdate init c = init from if_neg hi]
      · rw [if_neg hc] at h
        injection h with h; subst h
        by_cases hi : init.2 < c.2
        · rw [show bestUpdate init c = (some c.1, c.2) from if_pos hi,
            if_neg hc, if_pos hi]
        · rw [show bestUpdate init c = init from if_neg hi,
            if_neg (by push_neg at hc hi ⊢; exact le_trans hc hi), if_neg hi]

theorem firstArgmax_mem {α : Type} : ∀ {cs : List (α × ℚ)} {m : α × ℚ},
    firstArgmax cs = some m → m ∈ cs := by
  intro cs
  induction cs with
  | nil => intro m h; cases h
  | cons c cs ih =>
    intro m h
    simp only [firstArgmax] at h
    cases h2 : firstArgmax cs with
    | none =>
      rw [h2] at h; dsimp only at h; injection h with h; subst h
      exact List.mem_cons_self _ _
    | some m' =>
      rw [h2] at h; dsimp only at h
      by_cases hc : c.2 < m'.2
      · rw [if_pos hc] at h; injection h with h; subst h
        exact List.mem_cons_of_mem _ (ih h2)
      · rw [if_neg hc] at h; injection h with h; subst h
        exact List.mem_cons_self _ _

theorem firstArgmax_max {α : Type} : ∀ {cs : List (α × ℚ)} {m : α × ℚ},
    firstArgmax cs = some m → ∀ x ∈ cs, x.2 ≤ m.2 := by
  intro cs
  induction cs with
  | nil => intro m h; cases h
  | cons c cs ih =>
    intro m h x hx
    simp only [firstArgmax] at h
    cases h2 : firstArgmax cs with
    | none =>
      rw [h2] at h; dsimp only at h; injection h with h; subst h
      rcases List.mem_cons.mp hx with rfl | hx'
      · exact le_refl _
      · rw [firstArgmax_eq_none_iff.mp h2] at hx'; cases hx'
    | some m' =>
      rw [h2] at h; dsimp only at h
      by_cases hc : c.2 < m'.2
      · rw [if_pos hc] at h; injection h with h; subst h
        rcases List.mem_cons.mp hx with rfl | hx'
        · exact le_of_lt hc
        · exact ih h2 x hx'
      · rw [if_neg hc] at h; injection h with h; subst h
        rcases List.mem_cons.mp hx with rfl | hx'
        · exact le_refl _
        · exact le_trans (ih h2 x hx') (not_lt.mp hc)

theorem matchConfidence_bounds (text : PyStr) (m : ReMatch) :
    0.7 ≤ matchConfidence text m ∧ matchConfidence text m ≤ 0.9 := by
  simp only [matchConfidence]
  split_ifs <;> norm_num

/-- The `+=` chain of the boost computation as one sum. -/
theorem matchConfidence_formula (text : PyStr) (m : ReMatch) :
    matchConfidence text m = 0.7 +
      (if declKeywords.any (fun kw => pyContains (ctxWindow text m) kw)
        then (0.1 : ℚ) else 0) +
      (if partyKeywords.any (fun kw => pyContains (ctxWindow text m) kw)
        then (0.1 : ℚ) else 0) := by
  simp only [matchConfidence]
  split_ifs <;> ring_nf

/-- The nested pattern/match loops equal one `bestUpdate` fold over the
flattened candidate list. -/
theorem svc_foldl_eq (text : PyStr) (pats : List (List ReMatch)) :
    ∀ init,
      pats.foldl (fun b ms => ms.foldl (svcStep text) b) init =
        (svcCandidates text pats).foldl bestUpdate init := by
  induction pats with
  | nil => intro init; rfl
  | cons ms rest ih =>
    intro init
    rw [List.foldl_cons]
    have hcand : svcCandidates text (ms :: rest) =
        (ms.map fun m => (pyStrip m.g0, matchConfidence text m))
          ++ svcCandidates text rest := by
      simp [svcCandidates]
    rw [hcand, List.foldl_append, ih, List.foldl_map]
    rfl

/-- `_extract_field_value` with no extractors, through the candidate
list. -/
theorem extractFieldValueSvc_eq_cands (text : PyStr)
    (pats : List (List ReMatch)) :
    extractFieldValueSvc text pats [] =
      (((svcCandidates text pats).foldl bestUpdate
          ((none : Option PyStr), (0 : ℚ))).1,
        min ((svcCandidates text pats).foldl bestUpdate
          ((none : Option PyStr), (0 : ℚ))).2 1) := by
  simp only [extractFieldValueSvc, List.foldl_nil]
  rw [svc_foldl_eq]

/-- Every candidate carries a `matchConfidence` value. -/
theorem mem_svcCandidates {text : PyStr} {pats : List (List ReMatch)}
    {x : PyStr × ℚ} (hx : x ∈ svcCandidates text pats) :
    ∃ rm : ReMatch, x = (pyStrip rm.g0, matchConfidence text rm) := by
  simp only [svcCandidates, List.mem_flatten, List.mem_map] at hx
  rcases hx with ⟨l, ⟨ms, _, rfl⟩, hxl⟩
  rcases List.mem_map.mp hxl with ⟨rm, _, rfl⟩
  exact ⟨rm, rfl⟩

/-- A single pattern with a single match wins with its own value and
confidence. -/
theorem extractFieldValueSvc_single (text : PyStr) (m : ReMatch) :
    extractFieldValueSvc text [[m]] [] =
      (some (pyStrip m.g0), matchConfidence text m) := by
  have hb := matchConfidence_bounds text m
  simp only [extractFieldValueSvc, List.foldl_cons, List.foldl_nil]
  rw [show svcStep text ((none : Option PyStr), (0 : ℚ)) m =
      (some (pyStrip m.g0), matchConfidence text m) from
    if_pos (by dsimp only; linarith [hb.1])]
  dsimp only
  rw [min_eq_left (by linarith [hb.2])]

/-- Patterns without matches contribute no candidates. -/
theorem svcCandidates_nil_of_all_empty {text : PyStr}
    {pats : List (List ReMatch)} (h : ∀ ms ∈ pats, ms = []) :
    svcCandidates text pats = [] := by
  induction pats with
  | nil => rfl
  | cons ms rest ih =>
    have h1 : ms = [] := h ms (List.mem_cons_self _ _)
    have h2 : svcCandidates text rest = [] :=
      ih fun x hx => h x (List.mem_cons_of_mem _ hx)
    simp only [svcCandidates, List.map_cons, List.flatten_cons, h1,
      List.map_nil, List.nil_append]
    simpa [svcCandidates] using h2

/-! ## Claim C1 -/

/-- C1 (confirmed): the declaration-service field evaluator tries every
configured pattern: with no extractors, its result is determined by
`firstArgmax` over the concatenated per-pattern candidates — the
highest-confidence candidate, the earliest in authoring order on a tie
(never merely the first match found), `(None, 0.0)` only when no pattern
matched; in particular with two patterns of which only the second
matches, the result equals that second pattern's match, not null. -/
theorem field_eval_keeps_highest_confidence :
    (∀ (text : PyStr) (pats : List (List ReMatch)),
      (firstArgmax (svcCandidates text pats) = none →
        extractFieldValueSvc text pats [] = (none, 0)) ∧
      ∀ m, firstArgmax (svcCandidates text pats) = some m →
        extractFieldValueSvc text pats [] = (some m.1, min m.2 1) ∧
        ∀ x ∈ svcCandidates text pats, x.2 ≤ m.2) ∧
    ∀ (text : PyStr) (ms : List ReMatch), ms ≠ [] →
      extractFieldValueSvc text [[], ms] [] =
        extractFieldValueSvc text [ms] [] ∧
      (extractFieldValueSvc text [[], ms] []).1 ≠ none := by
  have main : ∀ (text : PyStr) (pats : List (List ReMatch)),
      (firstArgmax (svcCandidates text pats) = none →
        extractFieldValueSvc text pats [] = (none, 0)) ∧
      ∀ m, firstArgmax (svcCandidates text pats) = some m →
        extractFieldValueSvc text pats [] = (some m.1, min m.2 1) ∧
        ∀ x ∈ svcCandidates text pats, x.2 ≤ m.2 := by
    intro text pats
    constructor
    · intro h
      rw [extractFieldValueSvc_eq_cands, firstArgmax_eq_none_iff.mp h]
      norm_num
    · intro m hm
      refine ⟨?_, firstArgmax_max hm⟩
      rcases mem_svcCandidates (firstArgmax_mem hm) with ⟨rm, hrm⟩
      have hpos : ((none : Option PyStr), (0 : ℚ)).2 < m.2 := by
        rw [hrm]
        have := (matchConfidence_bounds text rm).1
        dsimp only
        linarith
      rw [extractFieldValueSvc_eq_cands, foldl_bestUpdate_some hm,
        if_pos hpos]
  refine ⟨main, ?_⟩
  intro text ms hms
  have hc : svcCandidates text [[], ms] = svcCandidates text [ms] := by
    simp [svcCandidates]
  have heq : extractFieldValueSvc text [[], ms] [] =
      extractFieldValueSvc text [ms] [] := by
    rw [extractFieldValueSvc_eq_cands, extractFieldValueSvc_eq_cands, hc]
  refine ⟨heq, ?_⟩
  have hne : svcCandidates text [[], ms] ≠ [] := by
    rw [hc]
    simp [svcCandidates, hms]
  cases hf : firstArgmax (svcCandidates text [[], ms]) with
  | none => exact absurd (firstArgmax_eq_none_iff.mp hf) hne
  | some m =>
    rw [((main text [[], ms]).2 m hf).1]
    simp

/-- C1 witness: text `"Страна: КАЗАХСТАН"`, first pattern `УЗБЕКИСТАН`
(no match, empty match list), second pattern `КАЗАХСТАН` (one match). -/
theorem field_eval_keeps_highest_confidence_witness :
    ciLitFinditer (pys "КАЗАХСТАН") (pys "Страна: КАЗАХСТАН") ≠ [] ∧
    extractFieldValueSvc (pys "Страна: КАЗАХСТАН")
        [[], ciLitFinditer (pys "КАЗАХСТАН") (pys "Страна: КАЗАХСТАН")] [] =
      extractFieldValueSvc (pys "Страна: КАЗАХСТАН")
        [ciLitFinditer (pys "КАЗАХСТАН") (pys "Страна: КАЗАХСТАН")] [] ∧
    (extractFieldValueSvc (pys "Страна: КАЗАХСТАН")
        [[], ciLitFinditer (pys "КАЗАХСТАН") (pys "Страна: КАЗАХСТАН")]
        []).1 ≠ none :=
  ⟨by decide,
   (field_eval_keeps_highest_confidence.2 (pys "Страна: КАЗАХСТАН")
     (ciLitFinditer (pys "КАЗАХСТАН") (pys "Страна: КАЗАХСТАН"))
     (by decide)).1,
   (field_eval_keeps_highest_confidence.2 (pys "Страна: КАЗАХСТАН")
     (ciLitFinditer (pys "КАЗАХСТАН") (pys "Страна: КАЗАХСТАН"))
     (by decide)).2⟩

/-! ## Claim C2 -/

/-- C2 (amended): in the declaration-service evaluator, no pattern match
gives `(None, 0.0)`; a match contributes the *full* stripped match text —
not capture group 1, even when the pattern has a capturing group — with
confidence `0.7` plus `0.1` per keyword-context boost (so at most `0.9`,
the `1.0` cap never binding); the worker's `apply_extraction_rule` is the
path that extracts group 1 when a capturing group exists (else the full
match), and it attaches no confidence. -/
theorem regex_rule_semantics :
    (∀ (text : PyStr) (pats : List (List ReMatch)), (∀ ms ∈ pats, ms = []) →
      extractFieldValueSvc text pats [] = (none, 0)) ∧
    (∀ (text : PyStr) (m : ReMatch),
      extractFieldValueSvc text [[m]] [] =
        (some (pyStrip m.g0), matchConfidence text m)) ∧
    (∀ (text : PyStr) (m : ReMatch),
      matchConfidence text m = 0.7 +
        (if declKeywords.any (fun kw => pyContains (ctxWindow text m) kw)
          then (0.1 : ℚ) else 0) +
        (if partyKeywords.any (fun kw => pyContains (ctxWindow text m) kw)
          then (0.1 : ℚ) else 0) ∧
      matchConfidence text m ≤ 0.9) ∧
    (∀ (m : ReMatch) (rest : List ReMatch),
      applyExtractionRuleRegex (m :: rest) = some (m.g1?.getD m.g0)) ∧
    applyExtractionRuleRegex [] = none := by
  refine ⟨?_, extractFieldValueSvc_single, ?_, ?_, rfl⟩
  · intro text pats h
    rw [extractFieldValueSvc_eq_cands, svcCandidates_nil_of_all_empty h]
    norm_num
  · intro text m
    exact ⟨matchConfidence_formula text m, (matchConfidence_bounds text m).2⟩
  · intro m rest
    obtain ⟨g0, g1, s, e⟩ := m
    cases g1 <;> rfl

/-- C2 witness: two patterns, both without matches, give `(None, 0.0)`. -/
theorem regex_rule_semantics_witness :
    (∀ ms ∈ ([[], []] : List (List ReMatch)), ms = []) ∧
    extractFieldValueSvc (pys "текст") [[], []] [] = (none, 0) :=
  ⟨by decide, regex_rule_semantics.1 (pys "текст") [[], []] (by decide)⟩

/-- C2 (counterexample): for the pattern `Страна: (казахстан)` — a
capturing group, matched case-insensitively — over the text
`"Страна: КАЗАХСТАН"`, `group(1)` is `"КАЗАХСТАН"`, yet the
confidence-scored evaluator returns the full match
`"Страна: КАЗАХСТАН"` with confidence `0.7`, not group 1 as the claim
states. -/
theorem regex_group_ignored_counterexample :
    ciLitGroupFinditer (pys "Страна: ") (pys "казахстан") []
        (pys "Страна: КАЗАХСТАН") =
      [⟨pys "Страна: КАЗАХСТАН", some (pys "КАЗАХСТАН"), 0, 17⟩] ∧
    extractFieldValueSvc (pys "Страна: КАЗАХСТАН")
        [ciLitGroupFinditer (pys "Страна: ") (pys "казахстан") []
          (pys "Страна: КАЗАХСТАН")] [] =
      (some (pys "Страна: КАЗАХСТАН"), 0.7) ∧
    pys "Страна: КАЗАХСТАН" ≠ pys "КАЗАХСТАН" := by
  have e1 : ciLitGroupFinditer (pys "Страна: ") (pys "казахстан") []
      (pys "Страна: КАЗАХСТАН") =
      [⟨pys "Страна: КАЗАХСТАН", some (pys "КАЗАХСТАН"), 0, 17⟩] := by
    decide
  refine ⟨e1, ?_, by decide⟩
  rw [e1, extractFieldValueSvc_single]
  have hconf : matchConfidence (pys "Страна: КАЗАХСТАН")
      ⟨pys "Страна: КАЗАХСТАН", some (pys "КАЗАХСТАН"), 0, 17⟩ = 0.7 := by
    rw [matchConfidence_formula,
      show (declKeywords.any fun kw =>
        pyContains (ctxWindow (pys "Страна: КАЗАХСТАН")
          ⟨pys "Страна: КАЗАХСТАН", some (pys "КАЗАХСТАН"), 0, 17⟩) kw)
        = false from by decide,
      show (partyKeywords.any fun kw =>
        pyContains (ctxWindow (pys "Страна: КАЗАХСТАН")
          ⟨pys "Страна: КАЗАХСТАН", some (pys "КАЗАХСТАН"), 0, 17⟩) kw)
        = false from by decide]
    norm_num
  rw [hconf,
    show pyStrip (⟨pys "Страна: КАЗАХСТАН", some (pys "КАЗАХСТАН"), 0, 17⟩ :
      ReMatch).g0 = pys "Страна: КАЗАХСТАН" from by decide]

/-! ## Claim C4 -/

/-- C4 (amended): a field whose rule evaluation raises never aborts the
run and the per-field loop never re-raises.  In the template engine the
failing field is recorded as value `None` with confidence `0.0` (plus the
error message) and every field of the template gets an entry; in the
enhanced worker the failing field is instead *skipped* — the result holds
exactly the fields whose rule returned a truthy value, so all other
fields are still reported. -/
theorem field_failure_contained :
    (∀ fs : List (FieldDef × Except PyStr (Option PyStr)),
      (applyTemplateExtraction fs).map Prod.fst =
        fs.map fun fr => fr.1.fieldName) ∧
    (∀ (fs : List (FieldDef × Except PyStr (Option PyStr)))
      (f : FieldDef) (e : PyStr), (f, Except.error e) ∈ fs →
      (f.fieldName, FieldEntry.mk none f.label 0 (some e)) ∈
        applyTemplateExtraction fs) ∧
    ∀ fs : List (FieldDef × Except PyStr (Option PyStr)),
      (workerExtractFields fs).map Prod.fst =
        (fs.filter fun fr =>
          match fr.2 with
          | .ok (some v) => !v.isEmpty
          | _ => false).map fun fr => fr.1.fieldName := by
  refine ⟨?_, ?_, ?_⟩
  · intro fs
    simp only [applyTemplateExtraction, List.map_map]
    apply List.map_congr_left
    intro fr _
    rcases fr with ⟨f, r⟩
    cases r <;> rfl
  · intro fs f e hmem
    exact List.mem_map.mpr ⟨(f, .error e), hmem, rfl⟩
  · intro fs
    induction fs with
    | nil => rfl
    | cons fr rest ih =>
      rcases fr with ⟨f, r⟩
      cases r with
      | error e =>
        simpa only [workerExtractFields, List.filterMap_cons,
          List.filter_cons] using ih
      | ok v =>
        cases v with
        | none =>
          simpa only [workerExtractFields, List.filterMap_cons,
            List.filter_cons] using ih
        | some s =>
          by_cases hs : s = []
          · subst hs
            simpa only [workerExtractFields, List.filterMap_cons,
              List.filter_cons] using ih
          · have hne : s.isEmpty = false := by
              cases s with
              | nil => exact absurd rfl hs
              | cons a t => rfl
            simp only [workerExtractFields, List.filterMap_cons,
              List.filter_cons, hne, if_neg hs, Bool.not_false, if_true,
              List.map_cons, List.cons.injEq, true_and]
            simpa only [workerExtractFields] using ih

/-- C4 (counterexample): in the enhanced worker, a two-field template
whose first field's rule raises produces a result containing only the
second field — the failing field is not recorded as `(null, 0.0)`. -/
theorem worker_skips_failed_field_counterexample :
    workerExtractFields
        [(⟨pys "f1", pys "Ф1", pys "regex"⟩, Except.error (pys "bad pattern")),
         (⟨pys "f2", pys "Ф2", pys "regex"⟩, Except.ok (some (pys "v2")))] =
      [(pys "f2", ⟨pys "v2", pys "Ф2", pys "regex"⟩)] ∧
    (workerExtractFields
        [(⟨pys "f1", pys "Ф1", pys "regex"⟩, Except.error (pys "bad pattern")),
         (⟨pys "f2", pys "Ф2", pys "regex"⟩,
           Except.ok (some (pys "v2")))]).map Prod.fst = [pys "f2"] := by
  refine ⟨?_, ?_⟩ <;> decide

/-- C4 witness: the engine records the raising field as
`(None, 0.0, error)` and keeps an entry for every field. -/
theorem field_failure_contained_witness :
    (pys "f1", FieldEntry.mk none (pys "Ф1") 0 (some (pys "bad pattern"))) ∈
      applyTemplateExtraction
        [(⟨pys "f1", pys "Ф1", pys "regex"⟩, Except.error (pys "bad pattern")),
         (⟨pys "f2", pys "Ф2", pys "regex"⟩, Except.ok (some (pys "v2")))] ∧
    (applyTemplateExtraction
        [(⟨pys "f1", pys "Ф1", pys "regex"⟩, Except.error (pys "bad pattern")),
         (⟨pys "f2", pys "Ф2", pys "regex"⟩,
           Except.ok (some (pys "v2")))]).map Prod.fst =
      [pys "f1", pys "f2"] :=
  ⟨field_failure_contained.2.1 _ ⟨pys "f1", pys "Ф1", pys "regex"⟩
      (pys "bad pattern") (List.mem_cons_self _ _),
   field_failure_contained.1 _⟩

/-! ## Claim C5 -/

theorem activeCount_cons (t : TemplateRec) (ts : List TemplateRec) :
    activeCount (t :: ts) =
      activeCount ts + (if t.isActive then 1 else 0) := by
  simp only [activeCount, List.filter_cons]
  split_ifs <;> simp

theorem activeCount_append (a b : List TemplateRec) :
    activeCount (a ++ b) = activeCount a + activeCount b := by
  simp [activeCount, List.filter_append]

theorem activeCount_nil_of_all_false {ts : List TemplateRec}
    (h : ∀ t ∈ ts, t.isActive = false) : activeCount ts = 0 := by
  induction ts with
  | nil => rfl
  | cons t rest ih =>
    rw [activeCount_cons, if_neg (by rw [h t (List.mem_cons_self _ _)]; simp),
      ih fun u hu => h u (List.mem_cons_of_mem _ hu)]

theorem deactivateAll_all_false {ts : List TemplateRec} :
    ∀ t ∈ deactivateAll ts, t.isActive = false := by
  intro t ht
  rcases List.mem_map.mp ht with ⟨u, _, rfl⟩
  rfl

theorem deactivateAll_any_tid (ts : List TemplateRec) (tid : Nat) :
    (deactivateAll ts).any (fun t => t.tid = tid) =
      ts.any (fun t => t.tid = tid) := by
  induction ts with
  | nil => rfl
  | cons t rest ih => simp only [deactivateAll, List.map_cons,
      List.any_cons] at *; rw [ih]

theorem setIsActiveFirst_spec_true {ts : List TemplateRec} {tid : Nat}
    (h0 : ∀ t ∈ ts, t.isActive = false)
    (hmem : ts.any (fun t => t.tid = tid) = true) :
    activeCount (setIsActiveFirst ts tid true) = 1 ∧
      ∀ t ∈ setIsActiveFirst ts tid true, t.isActive = true → t.tid = tid := by
  induction ts with
  | nil => cases hmem
  | cons u rest ih =>
    by_cases hu : u.tid = tid
    · simp only [setIsActiveFirst, if_pos hu]
      constructor
      · rw [activeCount_cons, if_pos rfl,
          activeCount_nil_of_all_false
            fun t ht => h0 t (List.mem_cons_of_mem _ ht)]
      · intro t ht hact
        rcases List.mem_cons.mp ht with rfl | ht'
        · exact hu
        · rw [h0 t (List.mem_cons_of_mem _ ht')] at hact; cases hact
    · simp only [setIsActiveFirst, if_neg hu]
      have hmem' : rest.any (fun t => t.tid = tid) = true := by
        simp only [List.any_cons, Bool.or_eq_true, decide_eq_true_eq] at hmem
        rcases hmem with h | h
        · exact absurd h hu
        · exact h
      have hrest := ih (fun t ht => h0 t (List.mem_cons_of_mem _ ht)) hmem'
      constructor
      · rw [activeCount_cons,
          if_neg (by rw [h0 u (List.mem_cons_self _ _)]; simp), hrest.1]
      · intro t ht hact
        rcases List.mem_cons.mp ht with rfl | ht'
        · rw [h0 t (List.mem_cons_self _ _)] at hact; cases hact
        · exact hrest.2 t ht' hact

theorem setActive_spec {ts : List TemplateRec} {tid : Nat}
    {ts' : List TemplateRec} (h : setActive ts tid = some ts') :
    activeCount ts' = 1 ∧ ∀ t ∈ ts', t.isActive = true → t.tid = tid := by
  simp only [setActive, updateTemplateActive] at h
  rw [if_pos (trivial : True)] at h
  by_cases hany : (ts.any fun t => t.tid = tid) = true
  · rw [if_pos hany] at h
    injection h with h
    subst h
    exact setIsActiveFirst_spec_true deactivateAll_all_false
      (by rw [deactivateAll_any_tid]; exact hany)
  · rw [if_neg hany] at h
    cases h

theorem setIsActiveFirst_false_le (ts : List TemplateRec) (tid : Nat) :
    activeCount (setIsActiveFirst ts tid false) ≤ activeCount ts := by
  induction ts with
  | nil => exact le_refl _
  | cons u rest ih =>
    by_cases hu : u.tid = tid
    · rw [show setIsActiveFirst (u :: rest) tid false
          = { u with isActive := false } :: rest from by
        rw [setIsActiveFirst, if_pos hu]]
      rw [activeCount_cons, activeCount_cons]
      dsimp only
      rw [if_neg Bool.false_ne_true]
      split_ifs <;> omega
    · rw [show setIsActiveFirst (u :: rest) tid false
          = u :: setIsActiveFirst rest tid false from by
        rw [setIsActiveFirst, if_neg hu]]
      rw [activeCount_cons, activeCount_cons]
      omega

theorem deleteTemplate_le (ts : List TemplateRec) (tid : Nat) :
    activeCount (deleteTemplate ts tid) ≤ activeCount ts := by
  induction ts with
  | nil => exact le_refl _
  | cons u rest ih =>
    by_cases hu : u.tid = tid
    · rw [show deleteTemplate (u :: rest) tid = rest from by
        rw [deleteTemplate, if_pos hu]]
      rw [activeCount_cons]
      omega
    · rw [show deleteTemplate (u :: rest) tid
          = u :: deleteTemplate rest tid from by
        rw [deleteTemplate, if_neg hu]]
      rw [activeCount_cons, activeCount_cons]
      omega

/-- C5 (confirmed): activating a template deactivates every other row in
the same operation — after `set_active(A)` then `set_active(B)` exactly
one template is active and every active row has id `B`; and every admin
write operation preserves "at most one active template". -/
theorem single_active_template :
    (∀ (ts : List TemplateRec) (a b : Nat) (ts1 ts2 : List TemplateRec),
      setActive ts a = some ts1 → setActive ts1 b = some ts2 →
      activeCount ts2 = 1 ∧ ∀ t ∈ ts2, t.isActive = true → t.tid = b) ∧
    ∀ (ts : List TemplateRec) (op : AdminOp),
      activeCount ts ≤ 1 → activeCount (applyAdminOp ts op) ≤ 1 := by
  constructor
  · intro ts a b ts1 ts2 _ h2
    exact setActive_spec h2
  · intro ts op h
    cases op with
    | create newId nm b =>
      cases b with
      | false =>
        simp only [applyAdminOp, createTemplate, if_neg Bool.false_ne_true,
          activeCount_append]
        have h1 : activeCount [(⟨newId, nm, false⟩ : TemplateRec)] = 0 := rfl
        omega
      | true =>
        simp only [applyAdminOp, createTemplate]
        rw [if_pos (trivial : True), activeCount_append,
          activeCount_nil_of_all_false (deactivateAll_all_false)]
        have h1 : activeCount [(⟨newId, nm, true⟩ : TemplateRec)] = 1 := rfl
        omega
    | updateActive tid b =>
      simp only [applyAdminOp]
      cases hu : updateTemplateActive ts tid b with
      | none => simpa using h
      | some ts' =>
        simp only [Option.getD_some]
        cases b with
        | true => rw [(setActive_spec hu).1]
        | false =>
          simp only [updateTemplateActive, if_neg Bool.false_ne_true] at hu
          by_cases hany : (ts.any fun t => t.tid = tid) = true
          · rw [if_pos hany] at hu
            injection hu with hu
            subst hu
            exact le_trans (setIsActiveFirst_false_le ts tid) h
          · rw [if_neg hany] at hu
            cases hu
    | updateOther tid => exact h
    | delete tid => exact le_trans (deleteTemplate_le ts tid) h

/-- C5 witness: two templates; activating 1 then 2 leaves exactly
template 2 active. -/
theorem single_active_template_witness :
    setActive [⟨1, pys "A", false⟩, ⟨2, pys "B", false⟩] 1 =
      some [⟨1, pys "A", true⟩, ⟨2, pys "B", false⟩] ∧
    setActive [⟨1, pys "A", true⟩, ⟨2, pys "B", false⟩] 2 =
      some [⟨1, pys "A", false⟩, ⟨2, pys "B", true⟩] ∧
    activeCount [⟨1, pys "A", false⟩, ⟨2, pys "B", true⟩] = 1 :=
  ⟨by decide, by decide,
   (single_active_template.1 [⟨1, pys "A", false⟩, ⟨2, pys "B", false⟩] 1 2
     [⟨1, pys "A", true⟩, ⟨2, pys "B", false⟩]
     [⟨1, pys "A", false⟩, ⟨2, pys "B", true⟩] (by decide) (by decide)).1⟩

/-! ## Claim C8 -/

theorem pyFind_spec : ∀ {s n : PyStr} {i : Nat}, pyFind s n = some i →
    n <+: s.drop i ∧ i + n.length ≤ s.length := by
  intro s
  induction s with
  | nil =>
    intro n i h
    rw [pyFind] at h
    by_cases hp : n.isPrefixOf ([] : PyStr)
    · rw [if_pos hp] at h
      injection h with h
      subst h
      have := List.isPrefixOf_iff_prefix.mp hp
      exact ⟨this, by simpa using this.length_le⟩
    · rw [if_neg hp] at h
      cases h
  | cons c t ih =>
    intro n i h
    rw [pyFind] at h
    by_cases hp : n.isPrefixOf (c :: t)
    · rw [if_pos hp] at h
      injection h with h
      subst h
      have := List.isPrefixOf_iff_prefix.mp hp
      exact ⟨this, by simpa using this.length_le⟩
    · rw [if_neg hp] at h
      rw [Option.map_eq_some'] at h
      rcases h with ⟨j, hj, rfl⟩
      have hih := ih hj
      refine ⟨?_, by simp only [List.length_cons]; omega⟩
      rw [List.drop_succ_cons]
      exact hih.1

/-- A keyword found by `text.find` lies inside the extraction window. -/
theorem keyword_infix_slice {text kw : PyStr} {pos md : Nat}
    (hpre : kw <+: text.drop pos) (hlen : pos + kw.length ≤ text.length) :
    kw <:+: pySlice text (pos - md)
      (min text.length (pos + kw.length + md)) := by
  set s := pos - md with hs
  set e := min text.length (pos + kw.length + md) with he
  have hsle : s ≤ pos := Nat.sub_le _ _
  have hpose : pos + kw.length ≤ e := le_min hlen (by omega)
  rcases hpre with ⟨r, hr⟩
  obtain ⟨A, hA, hAlen⟩ : ∃ A, text.drop s = A ++ (kw ++ r) ∧
      A.length = pos - s := by
    refine ⟨(text.drop s).take (pos - s), ?_, ?_⟩
    · have hD : (text.drop s).drop (pos - s) = kw ++ r := by
        rw [List.drop_drop, show s + (pos - s) = pos from by omega]
        exact hr.symm
      rw [← hD, List.take_append_drop]
    · rw [List.length_take, List.length_drop]
      omega
  have h1 : (text.drop s).take (e - s)
      = A.take (e - s) ++ (kw ++ r).take (e - s - A.length) := by
    rw [hA]
    exact List.take_append_eq_append_take
  have h2 : A.take (e - s) = A :=
    List.take_of_length_le (by rw [hAlen]; omega)
  have h3 : (kw ++ r).take (e - s - A.length)
      = kw ++ r.take (e - pos - kw.length) := by
    rw [hAlen, show e - s - (pos - s) = e - pos from by omega,
      List.take_append_eq_append_take,
      List.take_of_length_le (show kw.length ≤ e - pos from by omega)]
  refine ⟨A, r.take (e - pos - kw.length), ?_⟩
  show _ = (text.drop s).take (e - s)
  rw [h1, h2, h3, List.append_assoc]

theorem keywordProximityExtract_none {text : PyStr} {kws : List PyStr}
    {md : Nat} (h : ∀ kw ∈ kws, pyFind text kw = none) :
    keywordProximityExtract text kws md = none := by
  induction kws with
  | nil => rfl
  | cons kw rest ih =>
    simp only [keywordProximityExtract]
    rw [h kw (List.mem_cons_self _ _)]
    exact ih fun k hk => h k (List.mem_cons_of_mem _ hk)

theorem keywordProximityExtract_found {text kw : PyStr} {md pos : Nat}
    (h : pyFind text kw = some pos) :
    keywordProximityExtract text [kw] md =
      some (pyStrip (pySlice text (pos - md)
        (min text.length (pos + kw.length + md)))) := by
  simp only [keywordProximityExtract]
  rw [h]

/-- C8 (amended): the engine's KeywordProximity rule locates the first
keyword occurrence with the *case-sensitive* `text.find` (only the
worker's Keyword rule lowercases text and keyword first); when no keyword
occurs case-sensitively the engine records `(null, 0.0)`; when a keyword
containing a digit or letter occurs case-sensitively, the engine's
confidence is at least `0.8`; the worker's Keyword rule returns only a
value, with no confidence attached. -/
theorem keyword_rule_semantics :
    (∀ (text : PyStr) (kws : List PyStr) (md : Nat),
      (∀ kw ∈ kws, pyFind text kw = none) →
      keywordProximityExtract text kws md = none ∧
      calculateConfidence (keywordProximityExtract text kws md) = 0) ∧
    (∀ (text kw : PyStr) (md pos : Nat) (c : Char),
      pyFind text kw = some pos → c ∈ kw →
      (isPyDigit c || isLetterClass c) = true →
      0.8 ≤ calculateConfidence (keywordProximityExtract text [kw] md)) ∧
    ∀ (text kw : PyStr) (et : Option PyStr), kw ≠ [] →
      ((keywordExtract text kw et).isSome ↔
        (pyFind (pyLower text) (pyLower kw)).isSome) := by
  refine ⟨?_, ?_, ?_⟩
  · intro text kws md h
    have h0 : keywordProximityExtract text kws md = none :=
      keywordProximityExtract_none h
    exact ⟨h0, by rw [h0]; rfl⟩
  · intro text kw md pos c hfind hc hdl
    have hspec := pyFind_spec hfind
    have hinf : kw <:+: pySlice text (pos - md)
        (min text.length (pos + kw.length + md)) :=
      keyword_infix_slice hspec.1 hspec.2
    rw [keywordProximityExtract_found hfind]
    have hcs : isPySpace c = false := by
      have hdl' : isPyDigit c = true ∨ isLetterClass c = true := by
        simpa using hdl
      rcases hdl' with h | h
      · exact isPyDigit_not_space h
      · exact isLetterClass_not_space h
    have hcw : c ∈ pySlice text (pos - md)
        (min text.length (pos + kw.length + md)) := hinf.subset hc
    have hcv := mem_pyStrip_of_not_space hcw hcs
    have hvv := mem_pyStrip_of_not_space hcv hcs
    exact calculateConfidence_ge_of_strip (List.ne_nil_of_mem hvv)
  · intro text kw et hk
    simp only [keywordExtract, if_neg hk]
    cases pyFind (pyLower text) (pyLower kw) <;> simp

/-- C8 (counterexample): the keyword `"страна"` occurs in
`"СТРАНА: КАЗАХСТАН"` case-insensitively (the worker's lowercasing find
locates it at index 0, and its Keyword rule extracts a window), yet the
engine's KeywordProximity lookup is case-sensitive and returns `None` —
the claim that Keyword/KeywordProximity locate the keyword
case-insensitively fails for the engine. -/
theorem keyword_case_sensitivity_counterexample :
    pyFind (pyLower (pys "СТРАНА: КАЗАХСТАН")) (pyLower (pys "страна")) =
      some 0 ∧
    keywordExtract (pys "СТРАНА: КАЗАХСТАН") (pys "страна") none =
      some (pys ": КАЗАХСТАН") ∧
    keywordProximityExtract (pys "СТРАНА: КАЗАХСТАН") [pys "страна"] 50 =
      none := by
  refine ⟨by decide, by decide, by decide⟩

/-- C8 witness: the keyword `"Страна"` occurs case-sensitively; the
engine's confidence for the extracted window is at least `0.8`. -/
theorem keyword_rule_semantics_witness :
    pyFind (pys "Страна: КАЗАХСТАН") (pys "Страна") = some 0 ∧
    0.8 ≤ calculateConfidence
      (keywordProximityExtract (pys "Страна: КАЗАХСТАН")
        [pys "Страна"] 50) :=
  ⟨by decide,
   keyword_rule_semantics.2.1 (pys "Страна: КАЗАХСТАН") (pys "Страна")
     50 0 'С' (by decide) (by decide) (by decide)⟩

/-! ## Claim C9: dictionary lemmas -/

theorem dget_dset_self : ∀ (d : Dict) (k : PyStr) (v : Val),
    dget (dset d k v) k = some v := by
  intro d
  induction d with
  | nil => intro k v; simp [dset, dget]
  | cons kv rest ih =>
    intro k v
    rcases kv with ⟨k0, v0⟩
    by_cases h : k0 = k
    · simp [dset, dget, h]
    · simp only [dset, dget, if_neg h]
      exact ih k v

theorem dget_dset_ne : ∀ (d : Dict) (v : Val) {k k' : PyStr}, k' ≠ k →
    dget (dset d k v) k' = dget d k' := by
  intro d
  induction d with
  | nil =>
    intro v k k' h
    simp only [dset, dget]
    rw [if_neg fun he => h he.symm]
  | cons kv rest ih =>
    intro v k k' h
    rcases kv with ⟨k0, v0⟩
    by_cases h0 : k0 = k
    · simp only [dset, if_pos h0, dget]
      rw [if_neg (h0 ▸ fun he => h he.symm), if_neg (h0 ▸ fun he => h he.symm)]
    · simp only [dset, if_neg h0, dget]
      by_cases h0' : k0 = k'
      · rw [if_pos h0', if_pos h0']
      · rw [if_neg h0', if_neg h0']
        exact ih v h

theorem dset_of_dget_eq : ∀ {d : Dict} {k : PyStr} {v : Val},
    dget d k = some v → dset d k v = d := by
  intro d
  induction d with
  | nil => intro k v h; cases h
  | cons kv rest ih =>
    intro k v h
    rcases kv with ⟨k0, v0⟩
    by_cases h0 : k0 = k
    · simp only [dget, if_pos h0] at h
      injection h with h
      subst h
      simp only [dset, if_pos h0]
    · simp only [dget, if_neg h0] at h
      simp only [dset, if_neg h0]
      rw [ih h]

theorem dget_dset_isSome (d : Dict) (k k' : PyStr) (v : Val)
    (h : (dget d k').isSome = true) :
    (dget (dset d k v) k').isSome = true := by
  by_cases he : k' = k
  · subst he; rw [dget_dset_self]; rfl
  · rw [dget_dset_ne d v he]; exact h

theorem map_fst_dset_mem : ∀ {d : Dict} {k : PyStr} (v : Val),
    dget d k ≠ none → (dset d k v).map (·.1) = d.map (·.1) := by
  intro d
  induction d with
  | nil => intro k v h; exact absurd rfl h
  | cons kv rest ih =>
    intro k v h
    rcases kv with ⟨k0, v0⟩
    by_cases h0 : k0 = k
    · simp only [dset, if_pos h0, List.map_cons]
    · simp only [dget, if_neg h0] at h
      simp only [dset, if_neg h0, List.map_cons]
      rw [ih v h]

theorem map_fst_dset_new : ∀ {d : Dict} {k : PyStr} (v : Val),
    dget d k = none → (dset d k v).map (·.1) = d.map (·.1) ++ [k] := by
  intro d
  induction d with
  | nil => intro k v _; rfl
  | cons kv rest ih =>
    intro k v h
    rcases kv with ⟨k0, v0⟩
    by_cases h0 : k0 = k
    · simp only [dget, if_pos h0] at h
      cases h
    · simp only [dget, if_neg h0] at h
      simp only [dset, if_neg h0, List.map_cons, List.cons_append,
        List.cons.injEq, true_and]
      exact ih v h

/-- Re-setting the statistics key never changes the `'_enhanced'` key
count (its name does not end in `'_enhanced'`). -/
theorem countEnhanced_dset_stats (d : Dict) (v : Val) :
    countEnhanced (dset d refStatsKey v) = countEnhanced d := by
  by_cases hd : dget d refStatsKey = none
  · unfold countEnhanced
    rw [map_fst_dset_new v hd, List.countP_append]
    have h0 : List.countP (fun k => pyEndsWith k (pys "_enhanced"))
        [refStatsKey] = 0 := by decide
    omega
  · unfold countEnhanced
    rw [map_fst_dset_mem v hd]

theorem dget_stageWrites_not_written :
    ∀ (ws : List (PyStr × (RefInfo → Val))) (info : RefInfo) (e : Dict)
      {k : PyStr}, (∀ w ∈ ws, w.1 ≠ k) →
      dget (ws.foldl (fun acc kv => dset acc kv.1 (kv.2 info)) e) k =
        dget e k := by
  intro ws
  induction ws with
  | nil => intro info e k _; rfl
  | cons w rest ih =>
    intro info e k h
    rw [List.foldl_cons,
      ih info _ fun u hu => h u (List.mem_cons_of_mem _ hu),
      dget_dset_ne _ _ fun he => h w (List.mem_cons_self _ _) he.symm]

theorem dget_stageWrites_isSome :
    ∀ (ws : List (PyStr × (RefInfo → Val))) (info : RefInfo) (e : Dict)
      {k : PyStr}, (dget e k).isSome = true →
      (dget (ws.foldl (fun acc kv => dset acc kv.1 (kv.2 info)) e)
        k).isSome = true := by
  intro ws
  induction ws with
  | nil => intro info e k h; exact h
  | cons w rest ih =>
    intro info e k h
    rw [List.foldl_cons]
    exact ih info _ (dget_dset_isSome _ _ _ _ h)

theorem stageWrites_id {ws : List (PyStr × (RefInfo → Val))}
    {info : RefInfo} : ∀ {e : Dict},
    (∀ w ∈ ws, dget e w.1 = some (w.2 info)) →
    ws.foldl (fun acc kv => dset acc kv.1 (kv.2 info)) e = e := by
  induction ws with
  | nil => intro e _; rfl
  | cons w rest ih =>
    intro e h
    rw [List.foldl_cons, dset_of_dget_eq (h w (List.mem_cons_self _ _))]
    exact ih fun u hu => h u (List.mem_cons_of_mem _ hu)

theorem enhanceStage_dget_not_written {src : Dict} {sk : PyStr}
    {lf : PyStr → Option RefInfo} {ws : List (PyStr × (RefInfo → Val))}
    {e : Dict} {k : PyStr} (h : ∀ w ∈ ws, w.1 ≠ k) :
    dget (enhanceStage src sk lf ws e) k = dget e k := by
  cases hsrc : dget src sk with
  | none => simp only [enhanceStage, hsrc]
  | some v =>
    cases v with
    | vs s =>
      cases hlf : lf s with
      | none => simp only [enhanceStage, hsrc, hlf]
      | some info =>
        simp only [enhanceStage, hsrc, hlf]
        exact dget_stageWrites_not_written ws info e h
    | vb b => simp only [enhanceStage, hsrc]
    | vn n => simp only [enhanceStage, hsrc]

theorem enhanceStage_isSome {src : Dict} {sk : PyStr}
    {lf : PyStr → Option RefInfo} {ws : List (PyStr × (RefInfo → Val))}
    {e : Dict} {k : PyStr} (h : (dget e k).isSome = true) :
    (dget (enhanceStage src sk lf ws e) k).isSome = true := by
  cases hsrc : dget src sk with
  | none => simp only [enhanceStage, hsrc]; exact h
  | some v =>
    cases v with
    | vs s =>
      cases hlf : lf s with
      | none => simp only [enhanceStage, hsrc, hlf]; exact h
      | some info =>
        simp only [enhanceStage, hsrc, hlf]
        exact dget_stageWrites_isSome ws info e h
    | vb b => simp only [enhanceStage, hsrc]; exact h
    | vn n => simp only [enhanceStage, hsrc]; exact h

theorem enhanceStage_id {src : Dict} {sk : PyStr}
    {lf : PyStr → Option RefInfo} {ws : List (PyStr × (RefInfo → Val))}
    {e : Dict}
    (h : ∀ (s : PyStr) (info : RefInfo), dget src sk = some (Val.vs s) →
      lf s = some info → ∀ w ∈ ws, dget e w.1 = some (w.2 info)) :
    enhanceStage src sk lf ws e = e := by
  cases hsrc : dget src sk with
  | none => simp only [enhanceStage, hsrc]
  | some v =>
    cases v with
    | vs s =>
      cases hlf : lf s with
      | none => simp only [enhanceStage, hsrc, hlf]
      | some info =>
        simp only [enhanceStage, hsrc, hlf]
        exact stageWrites_id (h s info hsrc hlf)
    | vb b => simp only [enhanceStage, hsrc]
    | vn n => simp only [enhanceStage, hsrc]

/-- Result of a stage whose lookup hit. -/
theorem enhanceStage_hit {src : Dict} {sk : PyStr}
    {lf : PyStr → Option RefInfo} {ws : List (PyStr × (RefInfo → Val))}
    {e : Dict} {s : PyStr} {info : RefInfo}
    (hsrc : dget src sk = some (Val.vs s)) (hlf : lf s = some info) :
    enhanceStage src sk lf ws e =
      ws.foldl (fun acc kv => dset acc kv.1 (kv.2 info)) e := by
  simp only [enhanceStage, hsrc, hlf]

theorem countryWrites_present (info : RefInfo) (e : Dict) :
    ∀ w ∈ countryWrites,
      dget (countryWrites.foldl (fun acc kv => dset acc kv.1 (kv.2 info)) e)
        w.1 = some (w.2 info) := by
  intro w hw
  simp only [countryWrites, List.foldl_cons, List.foldl_nil,
    List.mem_cons, List.not_mem_nil, or_false] at *
  rcases hw with rfl | rfl
  · rw [dget_dset_ne _ _ (by decide), dget_dset_self]
  · rw [dget_dset_self]

theorem currencyWrites_present (info : RefInfo) (e : Dict) :
    ∀ w ∈ currencyWrites,
      dget (currencyWrites.foldl (fun acc kv => dset acc kv.1 (kv.2 info)) e)
        w.1 = some (w.2 info) := by
  intro w hw
  simp only [currencyWrites, List.foldl_cons, List.foldl_nil,
    List.mem_cons, List.not_mem_nil, or_false] at *
  rcases hw with rfl | rfl | rfl
  · rw [dget_dset_ne _ _ (by decide), dget_dset_ne _ _ (by decide),
      dget_dset_self]
  · rw [dget_dset_ne _ _ (by decide), dget_dset_self]
  · rw [dget_dset_self]

theorem transportWrites_present (info : RefInfo) (e : Dict) :
    ∀ w ∈ transportWrites,
      dget (transportWrites.foldl (fun acc kv => dset acc kv.1 (kv.2 info)) e)
        w.1 = some (w.2 info) := by
  intro w hw
  simp only [transportWrites, List.foldl_cons, List.foldl_nil,
    List.mem_cons, List.not_mem_nil, or_false] at *
  rcases hw with rfl | rfl | rfl
  · rw [dget_dset_ne _ _ (by decide), dget_dset_ne _ _ (by decide),
      dget_dset_self]
  · rw [dget_dset_ne _ _ (by decide), dget_dset_self]
  · rw [dget_dset_self]

theorem declWrites_present (info : RefInfo) (e : Dict) :
    ∀ w ∈ declWrites,
      dget (declWrites.foldl (fun acc kv => dset acc kv.1 (kv.2 info)) e)
        w.1 = some (w.2 info) := by
  intro w hw
  simp only [declWrites, List.foldl_cons, List.foldl_nil,
    List.mem_cons, List.not_mem_nil, or_false] at *
  rcases hw with rfl | rfl
  · rw [dget_dset_ne _ _ (by decide), dget_dset_self]
  · rw [dget_dset_self]

/-- `enhance_extracted_data` written out: the four lookup blocks reading
the original dict, then the statistics entry. -/
theorem enhanceExtractedData_eq (d : Dict) :
    enhanceExtractedData d =
      dset (enhanceStage d (pys "declaration_type") findDeclarationType
          declWrites
        (enhanceStage d (pys "transport_identity_departure")
          findTransportType transportWrites
        (enhanceStage d (pys "currency_code") findCurrencyByCodeOrName
          currencyWrites
        (enhanceStage d (pys "dispatch_country") findCountryByName
          countryWrites d))))
        refStatsKey
        (Val.vn (countEnhanced
          (enhanceStage d (pys "declaration_type") findDeclarationType
            declWrites
          (enhanceStage d (pys "transport_identity_departure")
            findTransportType transportWrites
          (enhanceStage d (pys "currency_code") findCurrencyByCodeOrName
            currencyWrites
          (enhanceStage d (pys "dispatch_country") findCountryByName
            countryWrites d)))))) := rfl

/-- C9 (amended): on well-formed extracted-data maps (string-valued
source fields), `enhance_extracted_data` never changes a key outside the
eleven derived keys it may write (so every original field survives, but a
pre-existing derived key such as `dispatch_country_code`, and the
`reference_data_enhancements` statistics entry, are recomputed — the
enhancement is *not* purely additive on those); every key present before
is still present after; a non-matching country lookup leaves the country
enhancement keys untouched; and the pass is idempotent:
`enhance(enhance(d)) == enhance(d)`. -/
theorem enhance_additive_idempotent (d : Dict)
    (_hwf : wellFormedSrc d = true) :
    (∀ k : PyStr, k ∉ derivedKeys →
      dget (enhanceExtractedData d) k = dget d k) ∧
    (∀ (k : PyStr) (v : Val), dget d k = some v →
      ∃ v', dget (enhanceExtractedData d) k = some v') ∧
    (∀ s : PyStr, dget d (pys "dispatch_country") = some (Val.vs s) →
      findCountryByName s = none →
      dget (enhanceExtractedData d) (pys "dispatch_country_code") =
        dget d (pys "dispatch_country_code") ∧
      dget (enhanceExtractedData d) (pys "dispatch_country_enhanced") =
        dget d (pys "dispatch_country_enhanced")) ∧
    enhanceExtractedData (enhanceExtractedData d) =
      enhanceExtractedData d := by
  have hnotd : ∀ k : PyStr, k ∉ derivedKeys →
      dget (enhanceExtractedData d) k = dget d k := by
    intro k hk
    have hne : ∀ (ws : List (PyStr × (RefInfo → Val))),
        (∀ w ∈ ws, w.1 ∈ derivedKeys) → ∀ w ∈ ws, w.1 ≠ k :=
      fun ws hws w hw he => hk (he ▸ hws w hw)
    rw [enhanceExtractedData_eq d,
      dget_dset_ne _ _ (fun he => hk (by rw [he]; decide)),
      enhanceStage_dget_not_written (hne declWrites (by decide)),
      enhanceStage_dget_not_written (hne transportWrites (by decide)),
      enhanceStage_dget_not_written (hne currencyWrites (by decide)),
      enhanceStage_dget_not_written (hne countryWrites (by decide))]
  have hpres : ∀ (k : PyStr) (v : Val), dget d k = some v →
      ∃ v', dget (enhanceExtractedData d) k = some v' := by
    intro k v hv
    rw [enhanceExtractedData_eq d]
    refine Option.isSome_iff_exists.mp ?_
    apply dget_dset_isSome
    apply enhanceStage_isSome
    apply enhanceStage_isSome
    apply enhanceStage_isSome
    apply enhanceStage_isSome
    rw [hv]
    rfl
  have hmissC : ∀ s : PyStr,
      dget d (pys "dispatch_country") = some (Val.vs s) →
      findCountryByName s = none →
      dget (enhanceExtractedData d) (pys "dispatch_country_code") =
        dget d (pys "dispatch_country_code") ∧
      dget (enhanceExtractedData d) (pys "dispatch_country_enhanced") =
        dget d (pys "dispatch_country_enhanced") := by
    intro s hs hm
    have hid : enhanceStage d (pys "dispatch_country") findCountryByName
        countryWrites d = d := by
      refine enhanceStage_id fun s' info hsrc hlf => ?_
      rw [hs] at hsrc
      injection hsrc with h1
      injection h1 with h2
      subst h2
      rw [hm] at hlf
      cases hlf
    constructor
    · rw [enhanceExtractedData_eq d, dget_dset_ne _ _ (by decide),
        enhanceStage_dget_not_written (by decide),
        enhanceStage_dget_not_written (by decide),
        enhanceStage_dget_not_written (by decide), hid]
    · rw [enhanceExtractedData_eq d, dget_dset_ne _ _ (by decide),
        enhanceStage_dget_not_written (by decide),
        enhanceStage_dget_not_written (by decide),
        enhanceStage_dget_not_written (by decide), hid]
  have hidem : enhanceExtractedData (enhanceExtractedData d) =
      enhanceExtractedData d := by
    have hW1 : ∀ (s : PyStr) (info : RefInfo),
        dget (enhanceExtractedData d) (pys "dispatch_country") =
          some (Val.vs s) →
        findCountryByName s = some info →
        ∀ w ∈ countryWrites,
          dget (enhanceExtractedData d) w.1 = some (w.2 info) := by
      intro s info hsrc hlf w hw
      rw [hnotd _ (by decide)] at hsrc
      rw [enhanceExtractedData_eq d,
        dget_dset_ne _ _
          ((by decide : ∀ u ∈ countryWrites, u.1 ≠ refStatsKey) w hw),
        enhanceStage_dget_not_written (fun u hu =>
          (by decide : ∀ u ∈ declWrites, ∀ x ∈ countryWrites,
            u.1 ≠ x.1) u hu w hw),
        enhanceStage_dget_not_written (fun u hu =>
          (by decide : ∀ u ∈ transportWrites, ∀ x ∈ countryWrites,
            u.1 ≠ x.1) u hu w hw),
        enhanceStage_dget_not_written (fun u hu =>
          (by decide : ∀ u ∈ currencyWrites, ∀ x ∈ countryWrites,
            u.1 ≠ x.1) u hu w hw),
        enhanceStage_hit hsrc hlf]
      exact countryWrites_present info d w hw
    have hW2 : ∀ (s : PyStr) (info : RefInfo),
        dget (enhanceExtractedData d) (pys "currency_code") =
          some (Val.vs s) →
        findCurrencyByCodeOrName s = some info →
        ∀ w ∈ currencyWrites,
          dget (enhanceExtractedData d) w.1 = some (w.2 info) := by
      intro s info hsrc hlf w hw
      rw [hnotd _ (by decide)] at hsrc
      rw [enhanceExtractedData_eq d,
        dget_dset_ne _ _
          ((by decide : ∀ u ∈ currencyWrites, u.1 ≠ refStatsKey) w hw),
        enhanceStage_dget_not_written (fun u hu =>
          (by decide : ∀ u ∈ declWrites, ∀ x ∈ currencyWrites,
            u.1 ≠ x.1) u hu w hw),
        enhanceStage_dget_not_written (fun u hu =>
          (by decide : ∀ u ∈ transportWrites, ∀ x ∈ currencyWrites,
            u.1 ≠ x.1) u hu w hw),
        enhanceStage_hit hsrc hlf]
      exact currencyWrites_present info _ w hw
    have hW3 : ∀ (s : PyStr) (info : RefInfo),
        dget (enhanceExtractedData d) (pys "transport_identity_departure") =
          some (Val.vs s) →
        findTransportType s = some info →
        ∀ w ∈ transportWrites,
          dget (enhanceExtractedData d) w.1 = some (w.2 info) := by
      intro s info hsrc hlf w hw
      rw [hnotd _ (by decide)] at hsrc
      rw [enhanceExtractedData_eq d,
        dget_dset_ne _ _
          ((by decide : ∀ u ∈ transportWrites, u.1 ≠ refStatsKey) w hw),
        enhanceStage_dget_not_written (fun u hu =>
          (by decide : ∀ u ∈ declWrites, ∀ x ∈ transportWrites,
            u.1 ≠ x.1) u hu w hw),
        enhanceStage_hit hsrc hlf]
      exact transportWrites_present info _ w hw
    have hW4 : ∀ (s : PyStr) (info : RefInfo),
        dget (enhanceExtractedData d) (pys "declaration_type") =
          some (Val.vs s) →
        findDeclarationType s = some info →
        ∀ w ∈ declWrites,
          dget (enhanceExtractedData d) w.1 = some (w.2 info) := by
      intro s info hsrc hlf w hw
      rw [hnotd _ (by decide)] at hsrc
      rw [enhanceExtractedData_eq d,
        dget_dset_ne _ _
          ((by decide : ∀ u ∈ declWrites, u.1 ≠ refStatsKey) w hw),
        enhanceStage_hit hsrc hlf]
      exact declWrites_present info _ w hw
    have hcnt : countEnhanced (enhanceExtractedData d) =
        countEnhanced
          (enhanceStage d (pys "declaration_type") findDeclarationType
            declWrites
          (enhanceStage d (pys "transport_identity_departure")
            findTransportType transportWrites
          (enhanceStage d (pys "currency_code") findCurrencyByCodeOrName
            currencyWrites
          (enhanceStage d (pys "dispatch_country") findCountryByName
            countryWrites d)))) := by
      rw [enhanceExtractedData_eq d, countEnhanced_dset_stats]
    rw [enhanceExtractedData_eq (enhanceExtractedData d),
      enhanceStage_id hW1, enhanceStage_id hW2, enhanceStage_id hW3,
      enhanceStage_id hW4, hcnt]
    apply dset_of_dget_eq
    rw [enhanceExtractedData_eq d, dget_dset_self]
  exact ⟨hnotd, hpres, hmissC, hidem⟩

/-- C9 (counterexample): a map that already contains
`dispatch_country_code` with value `"OLD"` has that key *overwritten* to
`"398"` by the enhancement — `enhance` is not purely additive: it changes
an original key's value. -/
theorem enhance_overwrites_counterexample :
    dget [(pys "dispatch_country", Val.vs (pys "КАЗАХСТАН")),
          (pys "dispatch_country_code", Val.vs (pys "OLD"))]
        (pys "dispatch_country_code") = some (Val.vs (pys "OLD")) ∧
    dget (enhanceExtractedData
        [(pys "dispatch_country", Val.vs (pys "КАЗАХСТАН")),
         (pys "dispatch_country_code", Val.vs (pys "OLD"))])
        (pys "dispatch_country_code") = some (Val.vs (pys "398")) ∧
    Val.vs (pys "OLD") ≠ Val.vs (pys "398") := by
  refine ⟨by decide, by decide, by decide⟩

/-- C9 witness: a one-field map; the original key survives enhancement,
and enhancing twice equals enhancing once. -/
theorem enhance_additive_idempotent_witness :
    wellFormedSrc [(pys "dispatch_country", Val.vs (pys "КАЗАХСТАН"))] =
      true ∧
    dget (enhanceExtractedData
        [(pys "dispatch_country", Val.vs (pys "КАЗАХСТАН"))])
      (pys "dispatch_country") = dget
        [(pys "dispatch_country", Val.vs (pys "КАЗАХСТАН"))]
        (pys "dispatch_country") ∧
    enhanceExtractedData (enhanceExtractedData
        [(pys "dispatch_country", Val.vs (pys "КАЗАХСТАН"))]) =
      enhanceExtractedData
        [(pys "dispatch_country", Val.vs (pys "КАЗАХСТАН"))] :=
  ⟨by decide,
   (enhance_additive_idempotent
     [(pys "dispatch_country", Val.vs (pys "КАЗАХСТАН"))] (by decide)).1
     (pys "dispatch_country") (by decide),
   (enhance_additive_idempotent
     [(pys "dispatch_country", Val.vs (pys "КАЗАХСТАН"))] (by decide)).2.2.2⟩

end SilkRoute
